import Mathlib

/-
Verification of the RillCoin Discord provisioning engine.

This file gives a shallow embedding of the declarative server-provisioning
engine of `marketing/scripts/setup_discord.py` (rate-limited REST transport,
permission-overwrite compiler, reconciliation engine) and of the incremental
add-channels variant of `marketing/scripts/add_feed_channels.py`, and proves
properties of the embedding.

Network interaction is modelled with explicit response environments: the
transport is a function of the list of responses the remote side produces;
the reconciliation engine is a function of a `World` that answers each kind
of request; the incremental variant runs against an explicit `Guild` state
that answers every request successfully (the idealized remote server).
Every client call and the operative log lines are recorded in a trace.
-/

namespace Rill

/-! ## Python dictionary on string keys (insertion ordered, value update in place) -/

/-- Python `dict` assignment `m[k] = v`: if the key is present the value is
replaced at its existing position, otherwise the pair is appended. -/
def dinsert {α : Type} : List (String × α) → String → α → List (String × α)
  | [], k, v => [(k, v)]
  | (k', v') :: rest, k, v =>
    if k' = k then (k', v) :: rest else (k', v') :: dinsert rest k v

/-- Python `dict.get(k)`: the value at the first (unique) occurrence of the key. -/
def dget {α : Type} : List (String × α) → String → Option α
  | [], _ => none
  | (k', v') :: rest, k => if k' = k then some v' else dget rest k

/-- Python `dict.get(k, d)` with a default. -/
def dgetD {α : Type} (m : List (String × α)) (k : String) (d : α) : α :=
  (dget m k).getD d

/-! ## The placeholder token and Python substring containment -/

/-- Python `needle in hay` on character lists. -/
def strHasSub (needle : List Char) : List Char → Bool
  | [] => needle.isEmpty
  | c :: t => needle.isPrefixOf (c :: t) || strHasSub needle t

/-- The literal marker string signaling unfinished content (see CRIT-01 in the
source): no pinned message may carry it into production. -/
def placeholderToken : String := "URL_PLACEHOLDER"

/-- Python `"URL_PLACEHOLDER" in msg`. -/
def containsPlaceholder (msg : String) : Bool :=
  strHasSub placeholderToken.data msg.data

/-! ## Rate-limited REST transport: `DiscordClient._request`

`_request` loops over the remote side's responses: a 429 response makes it
sleep for the body's `retry_after` (default 1.0) and retry the identical
request; 200/201 return the decoded body; 204 returns an empty object; any
other status logs `[HTTP status] METHOD path` (never the body, which may echo
credentials) and returns `None`.  A response is modelled with its status, the
optional `retry_after` field of its decoded body, its decoded JSON payload,
and its raw body text; the raw body is carried only so that theorems can
state that it never reaches the caller or the log. -/

structure Response where
  status : Nat
  retryAfter : Option ℚ
  json : String
  rawBody : String

/-- Value returned to the caller: decoded JSON payload for 200/201, the empty
object for a body-less 204. -/
inductive Payload
  | json (s : String)
  | emptyObj
deriving DecidableEq

/-- Observable transport events: a request hitting the wire, the rate-limit
sleep, and the error log line (status plus request descriptor only). -/
inductive TEvent
  | attempt (method path : String)
  | rateLimitWait (d : ℚ)
  | httpErrorLog (status : Nat) (method path : String)
deriving DecidableEq

/-- The string fields an event carries into the printed output. -/
def tevStrings : TEvent → List String
  | TEvent.attempt m p => [m, p]
  | TEvent.rateLimitWait _ => []
  | TEvent.httpErrorLog _ m p => [m, p]

/-- `DiscordClient._request` in non-dry-run mode, as a function of the
sequence of responses the remote side returns to the successive attempts
(`while True` loop of the source).  Returns the caller-visible result and the
ordered event trace. -/
def requestLoop (method path : String) : List Response → Option Payload × List TEvent
  | [] => (none, [])
  | r :: rest =>
    if r.status = 429 then
      let d := r.retryAfter.getD 1
      let k := requestLoop method path rest
      (k.1, TEvent.attempt method path :: TEvent.rateLimitWait d :: k.2)
    else if r.status = 200 ∨ r.status = 201 then
      (some (Payload.json r.json), [TEvent.attempt method path])
    else if r.status = 204 then
      (some Payload.emptyObj, [TEvent.attempt method path])
    else
      (none, [TEvent.attempt method path, TEvent.httpErrorLog r.status method path])

/-- C6: a transport call answered by a 429 response carrying a retry-after
duration and then a success response returns the success payload, and the
trace is exactly attempt, sleep of the full server-specified duration,
retried attempt of the identical request — so every sleep in the trace is at
least the retry-after duration and it separates the rate-limited attempt from
the retry. -/
theorem rate_limit_retry_returns_success (method path : String) (ra : ℚ) (j b : String)
    (r2 : Response) (hs : r2.status = 200 ∨ r2.status = 201 ∨ r2.status = 204) :
    requestLoop method path [⟨429, some ra, j, b⟩, r2]
      = (some (if r2.status = 204 then Payload.emptyObj else Payload.json r2.json),
         [TEvent.attempt method path, TEvent.rateLimitWait ra, TEvent.attempt method path])
    ∧ ∀ d : ℚ, TEvent.rateLimitWait d ∈ (requestLoop method path [⟨429, some ra, j, b⟩, r2]).2
        → ra ≤ d := by
  constructor
  · rcases hs with h | h | h <;> simp [requestLoop, h]
  · intro d hd
    rcases hs with h | h | h <;> simp [requestLoop, h] at hd <;>
      simp [hd]

/-- Witness for C6 at a concrete rate-limited exchange. -/
theorem rate_limit_retry_returns_success_witness :
    requestLoop "post" "/guilds/G/roles"
        [⟨429, some (3/2), "rl-body", "raw1"⟩, ⟨200, none, "payload-ok", "raw2"⟩]
      = (some (Payload.json "payload-ok"),
         [TEvent.attempt "post" "/guilds/G/roles", TEvent.rateLimitWait (3/2),
          TEvent.attempt "post" "/guilds/G/roles"]) := by
  have h := (rate_limit_retry_returns_success "post" "/guilds/G/roles" (3/2) "rl-body" "raw1"
      ⟨200, none, "payload-ok", "raw2"⟩ (Or.inl rfl)).1
  simpa using h

/-- C7: a response whose status is none of 200/201/204/429 makes the
transport return the failure value `none`; the trace carries exactly the
attempt and one error log holding the status code and the request descriptor
(method and path), and every string a trace event carries is the method or
the path — the raw response body reaches neither the returned value nor the
output. -/
theorem nonsuccess_returns_failure (method path : String) (r : Response)
    (h200 : r.status ≠ 200) (h201 : r.status ≠ 201) (h204 : r.status ≠ 204)
    (h429 : r.status ≠ 429) :
    requestLoop method path [r]
      = (none, [TEvent.attempt method path, TEvent.httpErrorLog r.status method path])
    ∧ ∀ e ∈ (requestLoop method path [r]).2, ∀ s ∈ tevStrings e, s = method ∨ s = path := by
  have hmain : requestLoop method path [r]
      = (none, [TEvent.attempt method path, TEvent.httpErrorLog r.status method path]) := by
    simp [requestLoop, h200, h201, h204, h429]
  refine ⟨hmain, ?_⟩
  intro e he s hsv
  rw [hmain] at he
  simp at he
  rcases he with h | h <;> subst h <;> simp [tevStrings] at hsv <;> tauto

/-- Witness for C7 at a concrete 403 response. -/
theorem nonsuccess_returns_failure_witness :
    requestLoop "get" "/guilds/G/channels" [⟨403, none, "denied", "secret-raw-body"⟩]
      = (none, [TEvent.attempt "get" "/guilds/G/channels",
                TEvent.httpErrorLog 403 "get" "/guilds/G/channels"]) := by
  exact (nonsuccess_returns_failure "get" "/guilds/G/channels"
      ⟨403, none, "denied", "secret-raw-body"⟩
      (by decide) (by decide) (by decide) (by decide)).1

/-! ## Permission bit constants and the overwrite compiler -/

def PERM_VIEW_CHANNEL : Nat := 1 <<< 10
def PERM_SEND_MESSAGES : Nat := 1 <<< 11
def PERM_MANAGE_MESSAGES : Nat := 1 <<< 13
def PERM_EMBED_LINKS : Nat := 1 <<< 14
def PERM_ATTACH_FILES : Nat := 1 <<< 15
def PERM_MENTION_EVERYONE : Nat := 1 <<< 17
def PERM_USE_VOICE : Nat := 1 <<< 21
def PERM_MANAGE_CHANNELS : Nat := 1 <<< 4
def PERM_MANAGE_ROLES : Nat := 1 <<< 28
def PERM_KICK_MEMBERS : Nat := 1 <<< 1
def PERM_BAN_MEMBERS : Nat := 1 <<< 2
def PERM_MANAGE_THREADS : Nat := 1 <<< 34
def PERM_TIMEOUT_MEMBERS : Nat := 1 <<< 40
def PERM_MUTE_MEMBERS : Nat := 1 <<< 22
def PERM_DEAFEN_MEMBERS : Nat := 1 <<< 23
def PERM_MOVE_MEMBERS : Nat := 1 <<< 24
def PERM_VIEW_AUDIT_LOG : Nat := 1 <<< 7
def PERM_ADMINISTRATOR : Nat := 1 <<< 3
def PERM_CREATE_INSTANT_INVITE : Nat := 1 <<< 0
def PERM_ADD_REACTIONS : Nat := 1 <<< 6
def PERM_READ_MESSAGES_HISTORY : Nat := 1 <<< 16
def PERM_USE_APPLICATION_COMMANDS : Nat := 1 <<< 31

def STANDARD_MEMBER_PERMS : Nat :=
  PERM_VIEW_CHANNEL ||| PERM_SEND_MESSAGES ||| PERM_EMBED_LINKS ||| PERM_ATTACH_FILES
    ||| PERM_ADD_REACTIONS ||| PERM_READ_MESSAGES_HISTORY ||| PERM_USE_APPLICATION_COMMANDS

def CORE_TEAM_PERMS : Nat :=
  STANDARD_MEMBER_PERMS ||| PERM_MANAGE_MESSAGES ||| PERM_MANAGE_THREADS
    ||| PERM_MUTE_MEMBERS ||| PERM_DEAFEN_MEMBERS ||| PERM_MOVE_MEMBERS

def MODERATOR_PERMS : Nat :=
  STANDARD_MEMBER_PERMS ||| PERM_KICK_MEMBERS ||| PERM_BAN_MEMBERS ||| PERM_MANAGE_MESSAGES
    ||| PERM_MANAGE_THREADS ||| PERM_VIEW_AUDIT_LOG ||| PERM_TIMEOUT_MEMBERS
    ||| PERM_MUTE_MEMBERS ||| PERM_CREATE_INSTANT_INVITE

/-- Channel type constants. -/
def CH_TEXT : Nat := 0
def CH_VOICE : Nat := 2
def CH_CATEGORY : Nat := 4
def CH_ANNOUNCEMENT : Nat := 5
def CH_FORUM : Nat := 15

/-- Permission overwrite target-kind constants. -/
def OW_ROLE : Nat := 0
def OW_MEMBER : Nat := 1

/-- A permission-overwrite record as placed in a channel-creation payload:
target id, target kind, and the allow/deny bitmasks serialized with `str()`. -/
structure Overwrite where
  id : String
  type : Nat
  allow : String
  deny : String
deriving DecidableEq

/-- `ServerSetup._build_overwrites`.  `ids` models `self.role_ids.get(name, "")`
(the empty string standing for a missing role), `everyoneId` is
`self.everyone_role_id` (the guild id).  The trailing filter drops any record
whose target id is empty, exactly as the source's final list comprehension. -/
def buildOverwrites (everyoneId : String) (ids : String → String) (template : String) :
    List Overwrite :=
  let unverifiedId := ids "Unverified"
  let memberId := ids "Member"
  let contributorId := ids "Contributor"
  let founderId := ids "Founder"
  let coreTeamId := ids "Core Team"
  let moderatorId := ids "Moderator"
  let ows : List Overwrite :=
    if template = "read_only" then
      [⟨everyoneId, OW_ROLE, toString (PERM_VIEW_CHANNEL ||| PERM_READ_MESSAGES_HISTORY),
        toString PERM_SEND_MESSAGES⟩]
      ++ (if unverifiedId ≠ "" then
            [⟨unverifiedId, OW_ROLE, toString (PERM_VIEW_CHANNEL ||| PERM_READ_MESSAGES_HISTORY),
              toString PERM_SEND_MESSAGES⟩]
          else [])
    else if template = "community" then
      [⟨everyoneId, OW_ROLE, "0", toString PERM_SEND_MESSAGES⟩]
      ++ (if unverifiedId ≠ "" then
            [⟨unverifiedId, OW_ROLE, "0", toString (PERM_VIEW_CHANNEL ||| PERM_SEND_MESSAGES)⟩]
          else [])
      ++ (if memberId ≠ "" then
            [⟨memberId, OW_ROLE,
              toString (PERM_VIEW_CHANNEL ||| PERM_SEND_MESSAGES ||| PERM_READ_MESSAGES_HISTORY),
              "0"⟩]
          else [])
    else if template = "governance" then
      [⟨everyoneId, OW_ROLE, "0", toString PERM_SEND_MESSAGES⟩]
      ++ (if unverifiedId ≠ "" then
            [⟨unverifiedId, OW_ROLE, "0", toString (PERM_VIEW_CHANNEL ||| PERM_SEND_MESSAGES)⟩]
          else [])
      ++ (if memberId ≠ "" then
            [⟨memberId, OW_ROLE, toString (PERM_VIEW_CHANNEL ||| PERM_READ_MESSAGES_HISTORY),
              toString PERM_SEND_MESSAGES⟩]
          else [])
      ++ (if contributorId ≠ "" then
            [⟨contributorId, OW_ROLE,
              toString (PERM_VIEW_CHANNEL ||| PERM_SEND_MESSAGES ||| PERM_READ_MESSAGES_HISTORY),
              "0"⟩]
          else [])
    else if template = "team_only" then
      [⟨everyoneId, OW_ROLE, "0", toString PERM_VIEW_CHANNEL⟩]
      ++ ([founderId, coreTeamId, moderatorId].filterMap (fun rid =>
            if rid ≠ "" then
              some ⟨rid, OW_ROLE,
                toString (PERM_VIEW_CHANNEL ||| PERM_SEND_MESSAGES ||| PERM_READ_MESSAGES_HISTORY),
                "0"⟩
            else none))
    else []
  ows.filter (fun ow => ow.id != "")

/-- The role names a template's records reference (besides the everyone role,
which comes from the guild id, not the role map). -/
def templateRoles (t : String) : List String :=
  if t = "read_only" then ["Unverified"]
  else if t = "community" then ["Unverified", "Member"]
  else if t = "governance" then ["Unverified", "Member", "Contributor"]
  else if t = "team_only" then ["Founder", "Core Team", "Moderator"]
  else []

/-- The four templates paired with each role they reference. -/
def templatePairs : List (String × String) :=
  [("read_only", "Unverified"),
   ("community", "Unverified"), ("community", "Member"),
   ("governance", "Unverified"), ("governance", "Member"), ("governance", "Contributor"),
   ("team_only", "Founder"), ("team_only", "Core Team"), ("team_only", "Moderator")]

/-- No compiled overwrite record carries an empty target id (the trailing
filter of `_build_overwrites`), for every template and role map. -/
theorem buildOverwrites_no_empty_target (e : String) (ids : String → String) (t : String) :
    ∀ ow ∈ buildOverwrites e ids t, ow.id ≠ "" := by
  intro ow h
  unfold buildOverwrites at h
  simp only [List.mem_filter] at h
  simpa using h.2

/-- C4: for each of the four templates and each role it references, compiling
with the fully-resolved role map minus that one role (its id blanked) yields
exactly the fully-resolved compilation minus the records targeting that role,
and no produced record has an empty target id.  The map `f` resolves every
referenced role to a distinct nonempty id different from the everyone id. -/
theorem overwrites_drop_exactly_missing_role (t r e : String) (f : String → String)
    (hp : (t, r) ∈ templatePairs)
    (hres : ∀ r' ∈ templateRoles t, f r' ≠ "")
    (hinj : ∀ r1 ∈ templateRoles t, ∀ r2 ∈ templateRoles t, r1 ≠ r2 → f r1 ≠ f r2)
    (he : ∀ r' ∈ templateRoles t, f r' ≠ e) :
    buildOverwrites e (fun n => if n = r then "" else f n) t
      = (buildOverwrites e f t).filter (fun ow => ow.id != f r)
    ∧ ∀ ow ∈ buildOverwrites e (fun n => if n = r then "" else f n) t, ow.id ≠ "" := by
  refine ⟨?_, buildOverwrites_no_empty_target e _ t⟩
  simp only [templatePairs, List.mem_cons, List.not_mem_nil, or_false, Prod.mk.injEq] at hp
  rcases hp with ⟨ht, hr⟩ | ⟨ht, hr⟩ | ⟨ht, hr⟩ | ⟨ht, hr⟩ | ⟨ht, hr⟩ | ⟨ht, hr⟩ | ⟨ht, hr⟩ |
    ⟨ht, hr⟩ | ⟨ht, hr⟩ <;> subst ht <;> subst hr
  · have hU := hres "Unverified" (by simp [templateRoles])
    have heU := Ne.symm (he "Unverified" (by simp [templateRoles]))
    by_cases he0 : e = "" <;> simp [buildOverwrites, hU, heU, he0]
  · have hU := hres "Unverified" (by simp [templateRoles])
    have hM := hres "Member" (by simp [templateRoles])
    have heU := Ne.symm (he "Unverified" (by simp [templateRoles]))
    have hMU := hinj "Member" (by simp [templateRoles]) "Unverified" (by simp [templateRoles])
      (by decide)
    by_cases he0 : e = "" <;> simp [buildOverwrites, hU, hM, heU, hMU, he0]
  · have hU := hres "Unverified" (by simp [templateRoles])
    have hM := hres "Member" (by simp [templateRoles])
    have heM := Ne.symm (he "Member" (by simp [templateRoles]))
    have hUM := hinj "Unverified" (by simp [templateRoles]) "Member" (by simp [templateRoles])
      (by decide)
    by_cases he0 : e = "" <;> simp [buildOverwrites, hU, hM, heM, hUM, he0]
  · have hU := hres "Unverified" (by simp [templateRoles])
    have hM := hres "Member" (by simp [templateRoles])
    have hC := hres "Contributor" (by simp [templateRoles])
    have heU := Ne.symm (he "Unverified" (by simp [templateRoles]))
    have hMU := hinj "Member" (by simp [templateRoles]) "Unverified" (by simp [templateRoles])
      (by decide)
    have hCU := hinj "Contributor" (by simp [templateRoles]) "Unverified"
      (by simp [templateRoles]) (by decide)
    by_cases he0 : e = "" <;> simp [buildOverwrites, hU, hM, hC, heU, hMU, hCU, he0]
  · have hU := hres "Unverified" (by simp [templateRoles])
    have hM := hres "Member" (by simp [templateRoles])
    have hC := hres "Contributor" (by simp [templateRoles])
    have heM := Ne.symm (he "Member" (by simp [templateRoles]))
    have hUM := hinj "Unverified" (by simp [templateRoles]) "Member" (by simp [templateRoles])
      (by decide)
    have hCM := hinj "Contributor" (by simp [templateRoles]) "Member" (by simp [templateRoles])
      (by decide)
    by_cases he0 : e = "" <;> simp [buildOverwrites, hU, hM, hC, heM, hUM, hCM, he0]
  · have hU := hres "Unverified" (by simp [templateRoles])
    have hM := hres "Member" (by simp [templateRoles])
    have hC := hres "Contributor" (by simp [templateRoles])
    have heC := Ne.symm (he "Contributor" (by simp [templateRoles]))
    have hUC := hinj "Unverified" (by simp [templateRoles]) "Contributor"
      (by simp [templateRoles]) (by decide)
    have hMC := hinj "Member" (by simp [templateRoles]) "Contributor" (by simp [templateRoles])
      (by decide)
    by_cases he0 : e = "" <;> simp [buildOverwrites, hU, hM, hC, heC, hUC, hMC, he0]
  · have hF := hres "Founder" (by simp [templateRoles])
    have hCT := hres "Core Team" (by simp [templateRoles])
    have hMo := hres "Moderator" (by simp [templateRoles])
    have heF := Ne.symm (he "Founder" (by simp [templateRoles]))
    have hCTF := hinj "Core Team" (by simp [templateRoles]) "Founder" (by simp [templateRoles])
      (by decide)
    have hMoF := hinj "Moderator" (by simp [templateRoles]) "Founder" (by simp [templateRoles])
      (by decide)
    by_cases he0 : e = "" <;> simp [buildOverwrites, hF, hCT, hMo, heF, hCTF, hMoF, he0]
  · have hF := hres "Founder" (by simp [templateRoles])
    have hCT := hres "Core Team" (by simp [templateRoles])
    have hMo := hres "Moderator" (by simp [templateRoles])
    have heCT := Ne.symm (he "Core Team" (by simp [templateRoles]))
    have hFCT := hinj "Founder" (by simp [templateRoles]) "Core Team" (by simp [templateRoles])
      (by decide)
    have hMoCT := hinj "Moderator" (by simp [templateRoles]) "Core Team"
      (by simp [templateRoles]) (by decide)
    by_cases he0 : e = "" <;> simp [buildOverwrites, hF, hCT, hMo, heCT, hFCT, hMoCT, he0]
  · have hF := hres "Founder" (by simp [templateRoles])
    have hCT := hres "Core Team" (by simp [templateRoles])
    have hMo := hres "Moderator" (by simp [templateRoles])
    have heMo := Ne.symm (he "Moderator" (by simp [templateRoles]))
    have hFMo := hinj "Founder" (by simp [templateRoles]) "Moderator" (by simp [templateRoles])
      (by decide)
    have hCTMo := hinj "Core Team" (by simp [templateRoles]) "Moderator"
      (by simp [templateRoles]) (by decide)
    by_cases he0 : e = "" <;> simp [buildOverwrites, hF, hCT, hMo, heMo, hFMo, hCTMo, he0]

/-- Witness for C4: the `team_only` template with the "Core Team" id blanked,
roles resolved to their own names. -/
theorem overwrites_drop_exactly_missing_role_witness :
    buildOverwrites "E" (fun n => if n = "Core Team" then "" else n) "team_only"
      = (buildOverwrites "E" (fun n => n) "team_only").filter
          (fun ow => ow.id != (fun n : String => n) "Core Team")
    ∧ ∀ ow ∈ buildOverwrites "E" (fun n => if n = "Core Team" then "" else n) "team_only",
        ow.id ≠ "" :=
  overwrites_drop_exactly_missing_role "team_only" "Core Team" "E" (fun n => n)
    (by decide) (by decide) (by decide) (by decide)

/-! ## Desired-state catalog: role and channel definitions -/

/-- A role definition of the `ROLES` table: name, 24-bit color, hoist and
mentionable flags, and the permission bitmask serialized with `str()`. -/
structure RoleDef where
  name : String
  color : Nat
  hoist : Bool
  mentionable : Bool
  permissions : String
deriving DecidableEq

/-- The `ROLES` table (highest to lowest in hierarchy). -/
def ROLES : List RoleDef :=
  [⟨"Founder", 0xF97316, true, false, toString PERM_ADMINISTRATOR⟩,
   ⟨"Core Team", 0x3B82F6, true, false, toString CORE_TEAM_PERMS⟩,
   ⟨"Moderator", 0x2A5A8C, true, false, toString MODERATOR_PERMS⟩,
   ⟨"Contributor", 0x4A8AF4, true, false, toString STANDARD_MEMBER_PERMS⟩,
   ⟨"Testnet Participant", 0x5DE0F2, true, false, toString STANDARD_MEMBER_PERMS⟩,
   ⟨"Bug Hunter", 0xD97706, false, false, toString STANDARD_MEMBER_PERMS⟩,
   ⟨"Ambassador", 0x3B82F6, false, false, toString STANDARD_MEMBER_PERMS⟩,
   ⟨"Member", 0, false, false, toString STANDARD_MEMBER_PERMS⟩,
   ⟨"Unverified", 0, false, false,
      toString (PERM_VIEW_CHANNEL ||| PERM_READ_MESSAGES_HISTORY)⟩,
   ⟨"Announcements Ping", 0, false, false, toString STANDARD_MEMBER_PERMS⟩,
   ⟨"Testnet Ping", 0, false, false, toString STANDARD_MEMBER_PERMS⟩,
   ⟨"Dev Updates Ping", 0, false, false, toString STANDARD_MEMBER_PERMS⟩,
   ⟨"AMA Ping", 0, false, false, toString STANDARD_MEMBER_PERMS⟩,
   ⟨"Governance Ping", 0, false, false, toString STANDARD_MEMBER_PERMS⟩]

/-- A channel definition of `SERVER_STRUCTURE`: name, type, topic (empty when
absent), optional explicit permission template (inherits the category's when
`none`), slow-mode seconds (0 when absent), optional forum thread rate limit. -/
structure ChanDef where
  name : String
  ctype : Nat
  topic : String
  permTemplate : Option String
  slowmode : Nat
  threadRateLimit : Option Nat
deriving DecidableEq

/-- A category definition of `SERVER_STRUCTURE`. -/
structure CatDef where
  name : String
  permTemplate : String
  channels : List ChanDef
deriving DecidableEq

/-- The `SERVER_STRUCTURE` table. -/
def SERVER_STRUCTURE : List CatDef :=
  [⟨"START HERE", "read_only",
    [⟨"welcome", CH_TEXT,
      "Learn what RillCoin is and how to get started in this server.",
      some "read_only", 0, none⟩,
     ⟨"rules", CH_TEXT,
      "Community standards and moderation policy. Read before posting.",
      some "read_only", 0, none⟩,
     ⟨"roles-and-verification", CH_TEXT,
      "Verify your account to unlock the server. Learn how roles are earned.",
      some "read_only", 0, none⟩,
     ⟨"faq", CH_TEXT,
      "Common questions about concentration decay, the testnet, wallets, and the roadmap.",
      some "read_only", 0, none⟩]⟩,
   ⟨"ANNOUNCEMENTS", "read_only",
    [⟨"announcements", CH_ANNOUNCEMENT,
      "Major releases, milestones, and protocol updates from the Core Team.",
      some "read_only", 0, none⟩,
     ⟨"dev-updates", CH_ANNOUNCEMENT,
      "Technical progress notes from developers. Shipped code, not speculation.",
      some "read_only", 0, none⟩,
     ⟨"testnet-status", CH_TEXT,
      "Live testnet health: block height, peer count, last decay event.",
      some "read_only", 0, none⟩]⟩,
   ⟨"COMMUNITY", "community",
    [⟨"general", CH_TEXT,
      "Open discussion about RillCoin. The main gathering channel.",
      some "community", 3, none⟩,
     ⟨"introductions", CH_FORUM,
      "New here? Start a thread and tell us what brought you to the project.",
      some "community", 0, some 60⟩,
     ⟨"price-and-markets", CH_TEXT,
      "Market discussion only. No financial advice, no predictions, no coordination.",
      some "community", 30, none⟩,
     ⟨"off-topic", CH_TEXT,
      "Everything unrelated to RillCoin. Tech, culture, whatever flows.",
      some "community", 5, none⟩,
     ⟨"memes", CH_TEXT,
      "Community art and humor. Keep it related to Rill themes.",
      some "community", 0, none⟩]⟩,
   ⟨"TECHNICAL", "community",
    [⟨"protocol", CH_TEXT,
      "Decay mechanics, consensus rules, fee structure, and proof-of-work design.",
      some "community", 5, none⟩,
     ⟨"development", CH_TEXT,
      "Codebase discussion, contribution questions, and architecture decisions.",
      some "community", 3, none⟩,
     ⟨"research", CH_FORUM,
      "Longer-form technical analysis, external papers, and economic modeling.",
      some "community", 0, some 300⟩,
     ⟨"node-operators", CH_TEXT,
      "Running a node or mining. Configuration, sync issues, hardware discussion.",
      some "community", 5, none⟩]⟩,
   ⟨"TESTNET", "community",
    [⟨"testnet-general", CH_TEXT,
      "General testnet discussion, questions, and coordination.",
      some "community", 5, none⟩,
     ⟨"bug-reports", CH_FORUM,
      "Structured bug reports only. Use the pinned template. Each report becomes a thread.",
      some "community", 0, some 300⟩,
     ⟨"testnet-wallets", CH_TEXT,
      "Share testnet wallet addresses for testing. Mainnet addresses are not permitted here.",
      some "community", 10, none⟩,
     ⟨"faucet", CH_TEXT,
      "Request testnet coins with /faucet. One request per user per 24 hours.",
      some "community", 10, none⟩]⟩,
   ⟨"GOVERNANCE", "community",
    [⟨"governance-general", CH_TEXT,
      "Discussion of governance process, philosophy, and community direction.",
      some "governance", 10, none⟩,
     ⟨"proposals", CH_FORUM,
      "Formal improvement proposals. Use the structured format: title, summary, motivation, specification.",
      some "governance", 0, some 300⟩,
     ⟨"voting", CH_TEXT,
      "Governance vote results and links. Active when on-chain voting launches.",
      some "read_only", 0, none⟩]⟩,
   ⟨"SUPPORT", "community",
    [⟨"support-general", CH_TEXT,
      "Public support for wallet setup, sync issues, and decay calculation questions.",
      some "community", 5, none⟩,
     ⟨"create-ticket", CH_TEXT,
      "Open a private support ticket with the team. Click the button below to start.",
      some "read_only", 0, none⟩]⟩,
   ⟨"TEAM", "team_only",
    [⟨"team-general", CH_TEXT, "Day-to-day coordination.", some "team_only", 0, none⟩,
     ⟨"mod-log", CH_TEXT, "Automated moderation action log.", some "team_only", 0, none⟩,
     ⟨"incident-response", CH_TEXT, "Active incident handling.", some "team_only", 0, none⟩,
     ⟨"community-feedback", CH_TEXT, "Digested community feedback for the dev team.",
      some "team_only", 0, none⟩]⟩,
   ⟨"BOTS", "community",
    [⟨"bot-commands", CH_TEXT,
      "Run bot commands here. Keeps other channels clean.",
      some "community", 0, none⟩,
     ⟨"github-feed", CH_TEXT,
      "Automated commits, pull requests, and releases from the RillCoin repository.",
      some "read_only", 0, none⟩,
     ⟨"twitter-feed", CH_TEXT,
      "Automated feed of posts from @RillCoin on X.",
      some "read_only", 0, none⟩,
     ⟨"crypto-news", CH_TEXT,
      "Aggregated crypto industry news from curated RSS sources. Powered by MonitoRSS.",
      some "read_only", 0, none⟩,
     ⟨"price-ticker", CH_TEXT,
      "Auto-updating price data for BTC, ETH, and top 20 by market cap. Powered by CoinGecko Bot.",
      some "read_only", 0, none⟩,
     ⟨"regulatory-watch", CH_TEXT,
      "Crypto regulation and legal news from SEC, CFTC, and industry sources. Powered by MonitoRSS.",
      some "read_only", 0, none⟩,
     ⟨"whale-alerts", CH_TEXT,
      "Large transaction alerts on major chains. Powered by Whale Alert Bot.",
      some "read_only", 0, none⟩]⟩]

/-! ## The reconciliation engine: `ServerSetup`

The engine is deterministic given the environment's answers.  A `World`
answers each kind of request the engine issues in non-dry-run mode: the
initial channel enumeration (`none` models a failed request), role creation
(`none` models a falsy result, `some s` a result whose extracted id is `s`),
channel creation, message send, and pin.  Every client call and the operative
log/abort lines are recorded as `Eff` values in order. -/

/-- A live channel as returned by the guild channel enumeration. -/
structure GChan where
  id : String
  name : String
deriving DecidableEq

/-- Result of a message send: falsy response, response without an `id`, or a
response carrying the new message id. -/
inductive SendRes
  | fail
  | noId
  | ok (id : String)
deriving DecidableEq

/-- The response environment for one engine run. -/
structure World where
  channelsList : Option (List GChan)
  roleCreate : String → Option String
  chanCreate : String → Option String
  send : String → String → SendRes
  pin : String → String → Bool

/-- A channel-creation payload as assembled by `create_channels`: name, type,
parent, compiled overwrites, and the optional topic / slow-mode /
forum-thread-rate fields. -/
structure ChanPayload where
  name : String
  ctype : Nat
  parentId : Option String
  overwrites : List Overwrite
  topic : Option String
  rateLimitPerUser : Option Nat
  defaultThreadRate : Option Nat
deriving DecidableEq

/-- Trace entries: client calls issued (printed instead of sent in dry-run
mode) and the operative log lines. -/
inductive Eff
  | reqGetChannels
  | logFetchFail
  | reqDeleteChannel (id : String)
  | reqCreateRole (r : RoleDef)
  | reqReorderRoles (positions : List (String × Nat))
  | fatalMissingRoles (missing : List String)
  | reqCreateChannel (p : ChanPayload)
  | logSkipCategory (name : String)
  | fatalPlaceholder (errs : List (String × Nat))
  | logSkipNoChannelId (name : String)
  | logSkipForum (name : String)
  | logDryRunPin (name : String) (idx : Nat)
  | reqSendMessage (chId content : String)
  | logSendFail (name : String) (idx : Nat)
  | logNoMsgId (name : String) (idx : Nat)
  | reqPinMessage (chId msgId : String)
  | logPinFail (name : String) (idx : Nat)
deriving DecidableEq

/-- How one engine process invocation ends: normal completion or `sys.exit`
with a code. -/
inductive Outcome
  | completed
  | exited (code : Nat)
deriving DecidableEq

/-- Step 1, `delete_default_channels`: enumerate live channels and delete each
one.  In dry-run mode the client returns a stub dict, which is not a list, so
the deletion loop runs over nothing.  A falsy enumeration result (failed
request, or an empty list) logs "Could not fetch existing channels." and
returns — the method never aborts the run. -/
def deleteDefaultChannels (w : World) (dry : Bool) : List Eff :=
  if dry then [Eff.reqGetChannels]
  else
    Eff.reqGetChannels ::
    match w.channelsList with
    | none => [Eff.logFetchFail]
    | some [] => [Eff.logFetchFail]
    | some chans => chans.map (fun c => Eff.reqDeleteChannel c.id)

/-- The role-creation result seen by `create_roles`: the dry-run stub carries
id "DRY_RUN_ID"; otherwise the world answers. -/
def roleCreateRes (w : World) (dry : Bool) (name : String) : Option String :=
  if dry then some "DRY_RUN_ID" else w.roleCreate name

/-- The creation loop of `create_roles`: post each role definition in catalog
order and record `name -> id` for each truthy result. -/
def createRolesLoop (w : World) (dry : Bool) :
    List RoleDef → List (String × String) → List (String × String) × List Eff
  | [], m => (m, [])
  | r :: rest, m =>
    let m' := match roleCreateRes w dry r.name with
      | some rid => dinsert m r.name rid
      | none => m
    let k := createRolesLoop w dry rest m'
    (k.1, Eff.reqCreateRole r :: k.2)

/-- The position list of the bulk re-order request: the role at index `idx` of
`total` receives position `total - idx`; roles without a truthy recorded id
are left out. -/
def rolePositions (total : Nat) (m : List (String × String)) :
    List RoleDef → Nat → List (String × Nat)
  | [], _ => []
  | r :: rest, idx =>
    (match dget m r.name with
     | some rid => if rid ≠ "" then [(rid, total - idx)] else []
     | none => []) ++ rolePositions total m rest (idx + 1)

/-- Step 2, `create_roles`: create all roles, then (outside dry-run mode, when
anything was recorded) issue one bulk re-order request. -/
def createRoles (w : World) (dry : Bool) (roles : List RoleDef) :
    List (String × String) × List Eff :=
  let k := createRolesLoop w dry roles []
  if dry then k
  else if k.1.isEmpty then k
  else
    let ps := rolePositions roles.length k.1 roles 0
    if ps.isEmpty then k else (k.1, k.2 ++ [Eff.reqReorderRoles ps])

/-- The roles `_validate_required_roles` treats as load-bearing. -/
def requiredRoles : List String :=
  ["Founder", "Core Team", "Moderator", "Contributor", "Member", "Unverified"]

/-- The required roles with no entry in the name-to-id map. -/
def missingRequired (m : List (String × String)) : List String :=
  requiredRoles.filter (fun r => (dget m r).isNone)

/-- The channel-creation result seen by `create_channels`. -/
def chanCreateRes (w : World) (dry : Bool) (name : String) : Option String :=
  if dry then some "DRY_RUN_ID" else w.chanCreate name

/-- The category-creation payload of `create_channels`. -/
def catPayload (everyoneId : String) (ids : String → String) (cat : CatDef) : ChanPayload :=
  ⟨cat.name, CH_CATEGORY, none, buildOverwrites everyoneId ids cat.permTemplate,
   none, none, none⟩

/-- The channel-creation payload of `create_channels`: effective template (own
or inherited from the category), topic unless the kind is category or forum,
slow-mode for plain text, thread rate limit (default 300) for forums. -/
def chanPayload (everyoneId : String) (ids : String → String) (catTemplate catId : String)
    (ch : ChanDef) : ChanPayload :=
  let tmpl := ch.permTemplate.getD catTemplate
  let p0 : ChanPayload :=
    ⟨ch.name, ch.ctype, some catId, buildOverwrites everyoneId ids tmpl, none, none, none⟩
  let p1 := if ch.topic ≠ "" ∧ ch.ctype ≠ CH_CATEGORY ∧ ch.ctype ≠ CH_FORUM
    then { p0 with topic := some ch.topic } else p0
  let p2 := if ch.slowmode ≠ 0 ∧ ch.ctype = CH_TEXT
    then { p1 with rateLimitPerUser := some ch.slowmode } else p1
  if ch.ctype = CH_FORUM then
    { p2 with topic := if ch.topic ≠ "" then some ch.topic else none,
              defaultThreadRate := some (ch.threadRateLimit.getD 300) }
  else p2

/-- The inner loop of `create_channels` over one category's channels: create
each and record `name -> id` for each truthy result. -/
def createChanList (w : World) (dry : Bool) (everyoneId : String) (ids : String → String)
    (catTemplate catId : String) :
    List ChanDef → List (String × String) → List (String × String) × List Eff
  | [], chm => (chm, [])
  | ch :: rest, chm =>
    let chm' := match chanCreateRes w dry ch.name with
      | some cid => dinsert chm ch.name cid
      | none => chm
    let k := createChanList w dry everyoneId ids catTemplate catId rest chm'
    (k.1, Eff.reqCreateChannel (chanPayload everyoneId ids catTemplate catId ch) :: k.2)

/-- Step 3, `create_channels`: for each category in order, compile its
overwrites and create it; a falsy creation result (or an empty extracted id)
skips the category's entire channel subtree with a logged error; otherwise
each contained channel is created under it. -/
def createChannels (w : World) (dry : Bool) (everyoneId : String)
    (m : List (String × String)) :
    List CatDef → List (String × String) → List (String × String) × List Eff
  | [], chm => (chm, [])
  | cat :: rest, chm =>
    let ids := fun n => dgetD m n ""
    let catEff := Eff.reqCreateChannel (catPayload everyoneId ids cat)
    match chanCreateRes w dry cat.name with
    | none =>
      let k := createChannels w dry everyoneId m rest chm
      (k.1, catEff :: Eff.logSkipCategory cat.name :: k.2)
    | some catId =>
      if catId = "" then
        let k := createChannels w dry everyoneId m rest chm
        (k.1, catEff :: Eff.logSkipCategory cat.name :: k.2)
      else
        let inner := createChanList w dry everyoneId ids cat.permTemplate catId
          cat.channels chm
        let k := createChannels w dry everyoneId m rest inner.1
        (k.1, catEff :: (inner.2 ++ k.2))

/-- The placeholder pre-flight scan over one channel's messages
(`enumerate(messages, start=1)`). -/
def scanMsgs (chName : String) : List String → Nat → List (String × Nat)
  | [], _ => []
  | msg :: rest, idx =>
    (if containsPlaceholder msg then [(chName, idx)] else []) ++ scanMsgs chName rest (idx + 1)

/-- The placeholder pre-flight scan of `pin_messages` over the whole
pinned-message catalog. -/
def placeholderScan : List (String × List String) → List (String × Nat)
  | [] => []
  | (n, msgs) :: rest => scanMsgs n msgs 1 ++ placeholderScan rest

/-- The channel-type lookup of `pin_messages`: the inner loop breaks on the
first match within a category but the outer loop keeps scanning, so a match
in a later category overwrites an earlier one. -/
def chTypeLookup (cats : List CatDef) (name : String) : Option Nat :=
  cats.foldl (fun acc cat =>
    match cat.channels.find? (fun ch => ch.name == name) with
    | some ch => some ch.ctype
    | none => acc) none

/-- The per-message loop of `pin_messages` for one channel: dry-run logs and
skips; otherwise send the message, then pin it by the returned id, logging
(not aborting) individual failures. -/
def pinMsgList (w : World) (dry : Bool) (chName chId : String) :
    List String → Nat → List Eff
  | [], _ => []
  | msg :: rest, idx =>
    (if dry then [Eff.logDryRunPin chName idx]
     else
       match w.send chId msg with
       | SendRes.fail => [Eff.reqSendMessage chId msg, Eff.logSendFail chName idx]
       | SendRes.noId => [Eff.reqSendMessage chId msg, Eff.logNoMsgId chName idx]
       | SendRes.ok msgId =>
         [Eff.reqSendMessage chId msg, Eff.reqPinMessage chId msgId]
         ++ (if w.pin chId msgId then [] else [Eff.logPinFail chName idx]))
    ++ pinMsgList w dry chName chId rest (idx + 1)

/-- The per-channel loop of `pin_messages`: skip channels without a truthy
recorded id, skip forum channels, otherwise run the per-message loop. -/
def pinChannelsLoop (w : World) (dry : Bool) (cats : List CatDef)
    (chm : List (String × String)) : List (String × List String) → List Eff
  | [] => []
  | (chName, msgs) :: rest =>
    (match dget chm chName with
     | none => [Eff.logSkipNoChannelId chName]
     | some chId =>
       if chId = "" then [Eff.logSkipNoChannelId chName]
       else if chTypeLookup cats chName = some CH_FORUM then [Eff.logSkipForum chName]
       else pinMsgList w dry chName chId msgs 1)
    ++ pinChannelsLoop w dry cats chm rest

/-- Step 4, `pin_messages`: the placeholder pre-flight scan runs first, before
the per-channel loop and before any dry-run branch; any hit is a hard abort
(`sys.exit(1)`), returned here as the `true` abort flag. -/
def pinMessages (w : World) (dry : Bool) (cats : List CatDef)
    (chm : List (String × String)) (pinned : List (String × List String)) :
    List Eff × Bool :=
  let errs := placeholderScan pinned
  if errs.isEmpty then (pinChannelsLoop w dry cats chm pinned, false)
  else ([Eff.fatalPlaceholder errs], true)

/-- `ServerSetup.run`: the stages in strict order, with the two `sys.exit(1)`
points (missing required roles outside dry-run mode; placeholder token in the
pinned catalog). -/
def run (guildId : String) (w : World) (dry : Bool) (roles : List RoleDef)
    (cats : List CatDef) (pinned : List (String × List String)) : List Eff × Outcome :=
  let e1 := deleteDefaultChannels w dry
  let rr := createRoles w dry roles
  let missing := missingRequired rr.1
  if !missing.isEmpty && !dry then
    (e1 ++ rr.2 ++ [Eff.fatalMissingRoles missing], Outcome.exited 1)
  else
    let cc := createChannels w dry guildId rr.1 cats []
    let pm := pinMessages w dry cats cc.1 pinned
    if pm.2 then (e1 ++ rr.2 ++ cc.2 ++ pm.1, Outcome.exited 1)
    else (e1 ++ rr.2 ++ cc.2 ++ pm.1, Outcome.completed)

/-! ## Engine lemmas and theorems -/

/-- Message-send or pin requests. -/
def isSendOrPin : Eff → Bool
  | Eff.reqSendMessage _ _ => true
  | Eff.reqPinMessage _ _ => true
  | _ => false

/-- Category- or channel-creation requests. -/
def isCreateChannelReq : Eff → Bool
  | Eff.reqCreateChannel _ => true
  | _ => false

theorem deleteDefaultChannels_effs (w : World) (dry : Bool) :
    ∀ e ∈ deleteDefaultChannels w dry, isSendOrPin e = false ∧ isCreateChannelReq e = false := by
  intro e he
  unfold deleteDefaultChannels at he
  split at he
  · simp at he; subst he; exact ⟨rfl, rfl⟩
  · simp only [List.mem_cons] at he
    rcases he with he | he
    · subst he; exact ⟨rfl, rfl⟩
    · split at he
      · simp at he; subst he; exact ⟨rfl, rfl⟩
      · simp at he; subst he; exact ⟨rfl, rfl⟩
      · simp only [List.mem_map] at he
        obtain ⟨c, _, hc⟩ := he
        subst hc; exact ⟨rfl, rfl⟩

theorem createRolesLoop_effs (w : World) (dry : Bool) :
    ∀ (roles : List RoleDef) (m : List (String × String)),
      (createRolesLoop w dry roles m).2 = roles.map (fun r => Eff.reqCreateRole r) := by
  intro roles
  induction roles with
  | nil => intro m; rfl
  | cons r rest ih => intro m; simp [createRolesLoop, ih]

theorem createRoles_effs (w : World) (dry : Bool) (roles : List RoleDef) :
    ∀ e ∈ (createRoles w dry roles).2,
      (∃ r, e = Eff.reqCreateRole r) ∨ (∃ ps, e = Eff.reqReorderRoles ps) := by
  intro e he
  simp only [createRoles] at he
  split at he
  · rw [createRolesLoop_effs] at he
    simp only [List.mem_map] at he
    obtain ⟨r, _, hr⟩ := he
    exact Or.inl ⟨r, hr.symm⟩
  · split at he
    · rw [createRolesLoop_effs] at he
      simp only [List.mem_map] at he
      obtain ⟨r, _, hr⟩ := he
      exact Or.inl ⟨r, hr.symm⟩
    · split at he
      · rw [createRolesLoop_effs] at he
        simp only [List.mem_map] at he
        obtain ⟨r, _, hr⟩ := he
        exact Or.inl ⟨r, hr.symm⟩
      · simp only [List.mem_append, List.mem_singleton] at he
        rcases he with he | he
        · rw [createRolesLoop_effs] at he
          simp only [List.mem_map] at he
          obtain ⟨r, _, hr⟩ := he
          exact Or.inl ⟨r, hr.symm⟩
        · exact Or.inr ⟨_, he⟩

theorem createChanList_effs (w : World) (dry : Bool) (everyoneId : String)
    (ids : String → String) (catTemplate catId : String) :
    ∀ (chs : List ChanDef) (chm : List (String × String)),
      ∀ e ∈ (createChanList w dry everyoneId ids catTemplate catId chs chm).2,
        ∃ p, e = Eff.reqCreateChannel p := by
  intro chs
  induction chs with
  | nil => intro chm e he; simp [createChanList] at he
  | cons ch rest ih =>
    intro chm e he
    simp only [createChanList, List.mem_cons] at he
    rcases he with he | he
    · exact ⟨_, he⟩
    · exact ih _ e he

theorem createChannels_effs (w : World) (dry : Bool) (everyoneId : String)
    (m : List (String × String)) :
    ∀ (cats : List CatDef) (chm : List (String × String)),
      ∀ e ∈ (createChannels w dry everyoneId m cats chm).2, isSendOrPin e = false := by
  intro cats
  induction cats with
  | nil => intro chm e he; simp [createChannels] at he
  | cons cat rest ih =>
    intro chm e he
    simp only [createChannels] at he
    split at he
    · simp only [List.mem_cons] at he
      rcases he with he | he | he
      · subst he; rfl
      · subst he; rfl
      · exact ih _ e he
    · split at he
      · simp only [List.mem_cons] at he
        rcases he with he | he | he
        · subst he; rfl
        · subst he; rfl
        · exact ih _ e he
      · simp only [List.mem_cons, List.mem_append] at he
        rcases he with he | he | he
        · subst he; rfl
        · obtain ⟨p, hp⟩ := createChanList_effs w dry everyoneId _ _ _ _ _ e he
          subst hp; rfl
        · exact ih _ e he

theorem scanMsgs_ne_nil (chName : String) :
    ∀ (msgs : List String) (idx : Nat),
      (∃ m ∈ msgs, containsPlaceholder m = true) → scanMsgs chName msgs idx ≠ [] := by
  intro msgs
  induction msgs with
  | nil => intro idx h; simp at h
  | cons msg rest ih =>
    intro idx h
    simp only [List.mem_cons] at h
    obtain ⟨m, hm, hc⟩ := h
    simp only [scanMsgs]
    rcases hm with hm | hm
    · subst hm; rw [if_pos hc]; simp
    · intro hnil
      rcases List.append_eq_nil.mp hnil with ⟨_, h2⟩
      exact ih (idx + 1) ⟨m, hm, hc⟩ h2

theorem placeholderScan_ne_nil :
    ∀ (pinned : List (String × List String)),
      (∃ p ∈ pinned, ∃ m ∈ p.2, containsPlaceholder m = true) → placeholderScan pinned ≠ [] := by
  intro pinned
  induction pinned with
  | nil => intro h; simp at h
  | cons q rest ih =>
    intro h
    obtain ⟨p, hp, hm⟩ := h
    simp only [List.mem_cons] at hp
    obtain ⟨n, msgs⟩ := q
    simp only [placeholderScan]
    intro hnil
    rcases List.append_eq_nil.mp hnil with ⟨h1, h2⟩
    rcases hp with hp | hp
    · subst hp
      exact scanMsgs_ne_nil n msgs 1 hm h1
    · exact ih ⟨p, hp, hm⟩ h2

/-- The pin stage aborts with only the fatal log when the scan finds the
placeholder token. -/
theorem pinMessages_abort (w : World) (dry : Bool) (cats : List CatDef)
    (chm : List (String × String)) (pinned : List (String × List String))
    (h : ∃ p ∈ pinned, ∃ m ∈ p.2, containsPlaceholder m = true) :
    pinMessages w dry cats chm pinned
      = ([Eff.fatalPlaceholder (placeholderScan pinned)], true) := by
  have hne := placeholderScan_ne_nil pinned h
  unfold pinMessages
  rcases hs : placeholderScan pinned with _ | ⟨a, rest⟩
  · exact absurd hs hne
  · simp

/-- C1: with the full engine's catalog, any pinned-message catalog containing
the placeholder token anywhere makes the whole run exit with code 1 and
prevents every message-send and pin request, in any mode. -/
theorem placeholder_aborts_whole_run (guildId : String) (w : World) (dry : Bool)
    (pinned : List (String × List String))
    (h : ∃ p ∈ pinned, ∃ m ∈ p.2, containsPlaceholder m = true) :
    (run guildId w dry ROLES SERVER_STRUCTURE pinned).2 = Outcome.exited 1
    ∧ ∀ e ∈ (run guildId w dry ROLES SERVER_STRUCTURE pinned).1, isSendOrPin e = false := by
  simp only [run]
  split
  · constructor
    · rfl
    · intro e he
      simp only [List.mem_append, List.mem_singleton] at he
      rcases he with (he | he) | he
      · exact (deleteDefaultChannels_effs w dry e he).1
      · rcases createRoles_effs w dry ROLES e he with ⟨r, hr⟩ | ⟨ps, hps⟩ <;> subst_vars <;> rfl
      · subst he; rfl
  · rw [pinMessages_abort w dry SERVER_STRUCTURE _ pinned h]
    rw [if_pos (rfl :
      (([Eff.fatalPlaceholder (placeholderScan pinned)], true) : List Eff × Bool).2 = true)]
    constructor
    · rfl
    · intro e he
      simp only [List.mem_append, List.mem_singleton] at he
      rcases he with ((he | he) | he) | he
      · exact (deleteDefaultChannels_effs w dry e he).1
      · rcases createRoles_effs w dry ROLES e he with ⟨r, hr⟩ | ⟨ps, hps⟩ <;> subst_vars <;> rfl
      · exact createChannels_effs w dry guildId _ SERVER_STRUCTURE [] e he
      · subst he; rfl

/-- A fully successful response environment. -/
def wOk : World :=
  ⟨some [⟨"c1", "old-general"⟩],
   fun n => some (String.append "rid-" n),
   fun n => some (String.append "cid-" n),
   fun _ _ => SendRes.ok "mid-1",
   fun _ _ => true⟩

/-- A pinned catalog whose first channel's message still carries the token. -/
def pinnedBad : List (String × List String) :=
  [("welcome", ["Docs: URL_PLACEHOLDER"]), ("rules", ["clean text"])]

/-- Witness for C1 at a concrete run. -/
theorem placeholder_aborts_whole_run_witness :
    (run "G" wOk false ROLES SERVER_STRUCTURE pinnedBad).2 = Outcome.exited 1
    ∧ ∀ e ∈ (run "G" wOk false ROLES SERVER_STRUCTURE pinnedBad).1, isSendOrPin e = false :=
  placeholder_aborts_whole_run "G" wOk false pinnedBad (by decide)

/-- C2: in non-simulate mode, if after role creation any required role has no
identifier in the role map, the run exits with code 1 and no category- or
channel-creation request is ever issued. -/
theorem missing_required_role_aborts (guildId : String) (w : World)
    (pinned : List (String × List String))
    (h : ∃ r ∈ requiredRoles, dget (createRoles w false ROLES).1 r = none) :
    (run guildId w false ROLES SERVER_STRUCTURE pinned).2 = Outcome.exited 1
    ∧ ∀ e ∈ (run guildId w false ROLES SERVER_STRUCTURE pinned).1,
        isCreateChannelReq e = false := by
  obtain ⟨r, hr, hnone⟩ := h
  have hmem : r ∈ missingRequired (createRoles w false ROLES).1 := by
    simp [missingRequired, List.mem_filter, hr, hnone]
  have hne : missingRequired (createRoles w false ROLES).1 ≠ [] :=
    List.ne_nil_of_mem hmem
  simp only [run]
  rcases hml : missingRequired (createRoles w false ROLES).1 with _ | ⟨a, t⟩
  · exact absurd hml hne
  · rw [if_pos (show (!(a :: t).isEmpty && !false) = true by rfl)]
    refine ⟨rfl, ?_⟩
    intro e he
    simp only [List.mem_append, List.mem_singleton] at he
    rcases he with (he | he) | he
    · exact (deleteDefaultChannels_effs w false e he).2
    · rcases createRoles_effs w false ROLES e he with ⟨r', hr'⟩ | ⟨ps, hps⟩ <;> subst_vars <;> rfl
    · subst he; rfl

/-- A response environment in which the creation of the "Member" role fails
and everything else succeeds. -/
def wMissing : World :=
  ⟨some [⟨"c1", "old-general"⟩],
   fun n => if n = "Member" then none else some (String.append "rid-" n),
   fun n => some (String.append "cid-" n),
   fun _ _ => SendRes.ok "mid-1",
   fun _ _ => true⟩

/-- Witness for C2 at a concrete run with a failed "Member" creation. -/
theorem missing_required_role_aborts_witness :
    (run "G" wMissing false ROLES SERVER_STRUCTURE []).2 = Outcome.exited 1
    ∧ ∀ e ∈ (run "G" wMissing false ROLES SERVER_STRUCTURE []).1,
        isCreateChannelReq e = false :=
  missing_required_role_aborts "G" wMissing [] (by decide)

/-- C10: the placeholder pre-flight scan runs before the dry-run branch of the
pin stage: in dry-run mode a catalog carrying the token still makes
`pin_messages` abort with only the fatal log — no per-channel processing, no
dry-run pin logging — and the whole run exits with code 1. -/
theorem dry_run_preflight_aborts (guildId : String) (w : World)
    (chm : List (String × String)) (pinned : List (String × List String))
    (h : ∃ p ∈ pinned, ∃ m ∈ p.2, containsPlaceholder m = true) :
    pinMessages w true SERVER_STRUCTURE chm pinned
      = ([Eff.fatalPlaceholder (placeholderScan pinned)], true)
    ∧ (run guildId w true ROLES SERVER_STRUCTURE pinned).2 = Outcome.exited 1 := by
  refine ⟨pinMessages_abort w true SERVER_STRUCTURE chm pinned h, ?_⟩
  simp only [run, Bool.not_true, Bool.and_false]
  rw [if_neg (by simp : ¬(false = true))]
  rw [pinMessages_abort w true SERVER_STRUCTURE _ pinned h]
  rw [if_pos (rfl :
    (([Eff.fatalPlaceholder (placeholderScan pinned)], true) : List Eff × Bool).2 = true)]

/-- Witness for C10 at a concrete dry run. -/
theorem dry_run_preflight_aborts_witness :
    pinMessages wOk true SERVER_STRUCTURE [("welcome", "cid-welcome")] pinnedBad
      = ([Eff.fatalPlaceholder (placeholderScan pinnedBad)], true)
    ∧ (run "G" wOk true ROLES SERVER_STRUCTURE pinnedBad).2 = Outcome.exited 1 :=
  dry_run_preflight_aborts "G" wOk [("welcome", "cid-welcome")] pinnedBad (by decide)

/-- A response environment whose channel enumeration fails and in which every
other request succeeds. -/
def wNoList : World :=
  ⟨none,
   fun n => some (String.append "rid-" n),
   fun n => some (String.append "cid-" n),
   fun _ _ => SendRes.ok "mid-1",
   fun _ _ => true⟩

/-- Counterexample to C3: with the channel enumeration failing and all other
requests succeeding, the full run completes with no exit and still issues
category/channel-creation requests — the engine does not abort. -/
theorem fetch_failure_run_completes :
    wNoList.channelsList = none
    ∧ (run "G" wNoList false ROLES SERVER_STRUCTURE []).2 = Outcome.completed
    ∧ (run "G" wNoList false ROLES SERVER_STRUCTURE []).1.any isCreateChannelReq = true := by
  refine ⟨rfl, ?_, ?_⟩ <;> decide

/-- The shape of the role-stage trace: the per-role creation requests,
possibly followed by the bulk re-order request. -/
theorem createRoles_effs_shape (w : World) (dry : Bool) (roles : List RoleDef) :
    (createRoles w dry roles).2 = (createRolesLoop w dry roles []).2
    ∨ (createRoles w dry roles).2
        = (createRolesLoop w dry roles []).2
          ++ [Eff.reqReorderRoles
                (rolePositions roles.length (createRolesLoop w dry roles []).1 roles 0)] := by
  simp only [createRoles]
  split
  · exact Or.inl rfl
  · split
    · exact Or.inl rfl
    · split
      · exact Or.inl rfl
      · exact Or.inr rfl

/-- C3 as amended: when the initial channel enumeration fails, the delete
stage logs "Could not fetch existing channels.", performs no deletion, and the
run continues with the later stages (every role-creation request is still
issued) instead of aborting. -/
theorem fetch_failure_logs_and_continues (guildId : String) (w : World)
    (pinned : List (String × List String)) (h : w.channelsList = none) :
    deleteDefaultChannels w false = [Eff.reqGetChannels, Eff.logFetchFail]
    ∧ ∀ r ∈ ROLES,
        Eff.reqCreateRole r ∈ (run guildId w false ROLES SERVER_STRUCTURE pinned).1 := by
  have hdel : deleteDefaultChannels w false = [Eff.reqGetChannels, Eff.logFetchFail] := by
    simp [deleteDefaultChannels, h]
  refine ⟨hdel, ?_⟩
  intro r hr
  have hloop : Eff.reqCreateRole r ∈ (createRolesLoop w false ROLES []).2 := by
    rw [createRolesLoop_effs]
    exact List.mem_map_of_mem _ hr
  have hmem : Eff.reqCreateRole r ∈ (createRoles w false ROLES).2 := by
    rcases createRoles_effs_shape w false ROLES with hs | hs <;> rw [hs]
    · exact hloop
    · exact List.mem_append_left _ hloop
  simp only [run]
  split
  · simp [hmem]
  · split <;> simp [hmem]

/-- Witness for the amended C3 at a concrete failing enumeration. -/
theorem fetch_failure_logs_and_continues_witness :
    deleteDefaultChannels wNoList false = [Eff.reqGetChannels, Eff.logFetchFail]
    ∧ ∀ r ∈ ROLES,
        Eff.reqCreateRole r ∈ (run "G" wNoList false ROLES SERVER_STRUCTURE []).1 :=
  fetch_failure_logs_and_continues "G" wNoList [] rfl

/-! ## Role re-ordering (C5) -/

/-- The expected position list: the role at index `idx` of `total` receives
position `total - idx`. -/
def positionsSpec (total : Nat) (ids : String → String) :
    List RoleDef → Nat → List (String × Nat)
  | [], _ => []
  | r :: rest, idx => (ids r.name, total - idx) :: positionsSpec total ids rest (idx + 1)

theorem dinsert_not_mem {α : Type} (m : List (String × α)) (k : String) (v : α)
    (h : k ∉ m.map Prod.fst) : dinsert m k v = m ++ [(k, v)] := by
  induction m with
  | nil => rfl
  | cons p rest ih =>
    obtain ⟨k', v'⟩ := p
    simp only [List.map_cons, List.mem_cons] at h
    push_neg at h
    simp only [dinsert]
    rw [if_neg (Ne.symm h.1), ih h.2]
    rfl

theorem createRolesLoop_map (w : World) (ids : String → String) :
    ∀ (roles : List RoleDef) (m : List (String × String)),
      (∀ r ∈ roles, w.roleCreate r.name = some (ids r.name)) →
      (∀ r ∈ roles, r.name ∉ m.map Prod.fst) →
      (roles.map RoleDef.name).Nodup →
      (createRolesLoop w false roles m).1 = m ++ roles.map (fun r => (r.name, ids r.name)) := by
  intro roles
  induction roles with
  | nil => intro m _ _ _; simp [createRolesLoop]
  | cons r rest ih =>
    intro m hall hnm hnd
    have hrc : roleCreateRes w false r.name = some (ids r.name) := by
      simp [roleCreateRes, hall r (by simp)]
    have hnd' : (∀ x ∈ rest, ¬x.name = r.name) ∧ (List.map RoleDef.name rest).Nodup := by
      simpa using hnd
    simp only [createRolesLoop, hrc]
    rw [dinsert_not_mem m r.name (ids r.name) (hnm r (by simp))]
    rw [ih (m ++ [(r.name, ids r.name)]) (fun x hx => hall x (by simp [hx])) ?keys ?nodup]
    · simp
    case keys =>
      intro x hx
      have hx1 : x.name ∉ m.map Prod.fst := hnm x (by simp [hx])
      have hx2 : x.name ≠ r.name := fun hcon => (hnd'.1 x hx) hcon
      simp only [List.map_append, List.mem_append]
      rintro (hc | hc)
      · exact hx1 hc
      · simp at hc
        exact hx2 hc
    case nodup => exact hnd'.2

theorem dget_map_name (ids : String → String) :
    ∀ (roles : List RoleDef) (n : String), n ∈ roles.map RoleDef.name →
      dget (roles.map (fun r => (r.name, ids r.name))) n = some (ids n) := by
  intro roles
  induction roles with
  | nil => intro n h; simp at h
  | cons r rest ih =>
    intro n h
    simp only [List.map_cons, dget]
    by_cases hr : r.name = n
    · rw [if_pos hr, hr]
    · rw [if_neg hr]
      apply ih
      simp only [List.map_cons, List.mem_cons] at h
      rcases h with h | h
      · exact absurd h.symm hr
      · exact h

theorem rolePositions_resolved (total : Nat) (m : List (String × String))
    (ids : String → String) :
    ∀ (roles : List RoleDef) (idx : Nat),
      (∀ r ∈ roles, dget m r.name = some (ids r.name)) →
      (∀ r ∈ roles, ids r.name ≠ "") →
      rolePositions total m roles idx = positionsSpec total ids roles idx := by
  intro roles
  induction roles with
  | nil => intro idx _ _; rfl
  | cons r rest ih =>
    intro idx hall hne
    simp only [rolePositions, positionsSpec, hall r (by simp)]
    rw [if_pos (hne r (by simp))]
    simp [ih (idx + 1) (fun x hx => hall x (by simp [hx])) (fun x hx => hne x (by simp [hx]))]

theorem positionsSpec_bound (total : Nat) (ids : String → String) :
    ∀ (roles : List RoleDef) (idx : Nat) (q : String × Nat),
      q ∈ positionsSpec total ids roles idx → q.2 ≤ total - idx := by
  intro roles
  induction roles with
  | nil => intro idx q hq; simp [positionsSpec] at hq
  | cons r rest ih =>
    intro idx q hq
    simp only [positionsSpec, List.mem_cons] at hq
    rcases hq with hq | hq
    · subst hq; exact le_refl _
    · have := ih (idx + 1) q hq
      omega

/-- C5: for a catalog of `n` role definitions all created successfully (with
distinct names and nonempty ids), the bulk re-order position list pairs the
role at catalog index `i` with position `n - i`; the head (catalog index 0)
receives position `n`, strictly above every other entry; and the re-order
request carrying exactly this list is issued by `create_roles`. -/
theorem role_reorder_positions (w : World) (roles : List RoleDef) (ids : String → String)
    (hnd : (roles.map RoleDef.name).Nodup)
    (hall : ∀ r ∈ roles, w.roleCreate r.name = some (ids r.name))
    (hne : ∀ r ∈ roles, ids r.name ≠ "") :
    rolePositions roles.length (createRolesLoop w false roles []).1 roles 0
      = positionsSpec roles.length ids roles 0
    ∧ (∀ hd, (rolePositions roles.length (createRolesLoop w false roles []).1 roles 0).head?
          = some hd →
        hd.2 = roles.length
        ∧ ∀ q ∈ (rolePositions roles.length
              (createRolesLoop w false roles []).1 roles 0).drop 1,
            q.2 < hd.2)
    ∧ (roles ≠ [] →
        Eff.reqReorderRoles
            (rolePositions roles.length (createRolesLoop w false roles []).1 roles 0)
          ∈ (createRoles w false roles).2) := by
  have hmap : (createRolesLoop w false roles []).1
      = roles.map (fun r => (r.name, ids r.name)) := by
    simpa using createRolesLoop_map w ids roles [] hall (by simp) hnd
  have hdg : ∀ r ∈ roles,
      dget (createRolesLoop w false roles []).1 r.name = some (ids r.name) := by
    intro r hr
    rw [hmap]
    exact dget_map_name ids roles r.name (List.mem_map_of_mem _ hr)
  have hpos : rolePositions roles.length (createRolesLoop w false roles []).1 roles 0
      = positionsSpec roles.length ids roles 0 :=
    rolePositions_resolved _ _ ids roles 0 hdg hne
  refine ⟨hpos, ?_, ?_⟩
  · intro hd hhd
    rw [hpos] at hhd
    cases roles with
    | nil => simp [positionsSpec] at hhd
    | cons r rest =>
      simp only [positionsSpec, List.head?_cons, Option.some.injEq] at hhd
      constructor
      · rw [← hhd]
        simp
      · intro q hq
        rw [hpos] at hq
        simp only [positionsSpec, List.drop_succ_cons, List.drop_zero] at hq
        have hb := positionsSpec_bound (r :: rest).length ids rest 1 q hq
        have hlen : (r :: rest).length = rest.length + 1 := rfl
        rw [← hhd]
        simp only [Nat.sub_zero]
        omega
  · intro hroles
    have h1 : (createRolesLoop w false roles []).1.isEmpty = false := by
      rw [hmap]
      cases roles with
      | nil => exact absurd rfl hroles
      | cons r rest => rfl
    have h2 : (rolePositions roles.length
        (createRolesLoop w false roles []).1 roles 0).isEmpty = false := by
      rw [hpos]
      cases roles with
      | nil => exact absurd rfl hroles
      | cons r rest => rfl
    simp [createRoles, h1, h2]

/-- Witness for C5 at the shipped 14-role catalog, all creations succeeding. -/
theorem role_reorder_positions_witness :
    rolePositions ROLES.length (createRolesLoop wOk false ROLES []).1 ROLES 0
      = positionsSpec ROLES.length (fun n => String.append "rid-" n) ROLES 0
    ∧ (∀ hd, (rolePositions ROLES.length (createRolesLoop wOk false ROLES []).1 ROLES 0).head?
          = some hd →
        hd.2 = ROLES.length
        ∧ ∀ q ∈ (rolePositions ROLES.length
              (createRolesLoop wOk false ROLES []).1 ROLES 0).drop 1,
            q.2 < hd.2)
    ∧ (ROLES ≠ [] →
        Eff.reqReorderRoles
            (rolePositions ROLES.length (createRolesLoop wOk false ROLES []).1 ROLES 0)
          ∈ (createRoles wOk false ROLES).2) :=
  role_reorder_positions wOk ROLES (fun n => String.append "rid-" n)
    (by decide) (by decide) (by decide)

/-! ## Incremental add variant: `add_feed_channels.py`

The incremental script runs against a live guild.  Its behaviour is embedded
against an idealized remote server — an explicit `Guild` state that answers
every request successfully: channel creation appends a channel with a fresh
id and no pins, a message send returns a fresh id, a pin increments the
target channel's pin count, pin listing reports that count.  Requests are
recorded in order. -/

/-- A live channel of the guild: id, name, type, and current pin count. -/
structure FChan where
  id : Nat
  name : String
  ctype : Nat
  pins : Nat
deriving DecidableEq

/-- The idealized live guild. -/
structure Guild where
  chans : List FChan
  roles : List (String × String)
  nextId : Nat
deriving DecidableEq

/-- One entry of the `NEW_CHANNELS` table. -/
structure FeedDef where
  name : String
  ctype : Nat
  topic : String
deriving DecidableEq

/-- The `NEW_CHANNELS` table of the incremental script. -/
def NEW_CHANNELS : List FeedDef :=
  [⟨"crypto-news", CH_TEXT,
    "Aggregated crypto industry news from curated RSS sources. Powered by MonitoRSS."⟩,
   ⟨"price-ticker", CH_TEXT,
    "Auto-updating price data for BTC, ETH, and top 20 by market cap. Powered by CoinTrendzBot."⟩,
   ⟨"regulatory-watch", CH_TEXT,
    "Crypto regulation and legal news from SEC, CFTC, and industry sources. Powered by MonitoRSS."⟩,
   ⟨"whale-alerts", CH_TEXT,
    "Large transaction alerts on major chains. Powered by Whale Alert Bot."⟩]

/-- Requests the incremental script issues. -/
inductive FReq
  | getChannels
  | getRoles
  | createChannel (name : String) (parent : Nat) (ows : List Overwrite)
  | getPins (chId : Nat)
  | sendMessage (chId : Nat) (content : String)
  | pinMessage (chId msgId : Nat)
deriving DecidableEq

def isFeedCreate : FReq → Bool
  | FReq.createChannel _ _ _ => true
  | _ => false

def isFeedSend : FReq → Bool
  | FReq.sendMessage _ _ => true
  | _ => false

def isFeedPin : FReq → Bool
  | FReq.pinMessage _ _ => true
  | _ => false

/-- The message contents carried by the send requests of a trace, in order. -/
def sentContents (rs : List FReq) : List String :=
  rs.filterMap (fun r => match r with
    | FReq.sendMessage _ m => some m
    | _ => none)

theorem sentContents_send (c : Nat) (m : String) (rs : List FReq) :
    sentContents (FReq.sendMessage c m :: rs) = m :: sentContents rs := rfl

theorem sentContents_pin (c i : Nat) (rs : List FReq) :
    sentContents (FReq.pinMessage c i :: rs) = sentContents rs := rfl

/-- Python `str.upper` (character-wise). -/
def strUpper (s : String) : String := ⟨s.data.map Char.toUpper⟩

/-- The BOTS-category search: the loop assigns on every match without
breaking, so the last matching category wins. -/
def findBots (chans : List FChan) : Option Nat :=
  chans.foldl
    (fun acc c => if c.ctype = 4 ∧ strUpper c.name = "BOTS" then some c.id else acc) none

/-- Channel creation on the idealized guild: fresh id, zero pins, appended. -/
def guildCreate (g : Guild) (name : String) (ctype : Nat) : Guild × Nat :=
  ({ chans := g.chans ++ [⟨g.nextId, name, ctype, 0⟩], roles := g.roles,
     nextId := g.nextId + 1 },
   g.nextId)

/-- Message send on the idealized guild: returns a fresh message id. -/
def guildSend (g : Guild) : Guild × Nat :=
  ({ g with nextId := g.nextId + 1 }, g.nextId)

/-- Pinning on the idealized guild: the target channel's pin count grows. -/
def guildPin (g : Guild) (chId : Nat) : Guild :=
  let bump := fun c : FChan => if c.id = chId then { c with pins := c.pins + 1 } else c
  { g with chans := g.chans.map bump }

/-- Pin listing on the idealized guild: the pin count of the channel. -/
def pinCountOf (g : Guild) (chId : Nat) : Nat :=
  ((g.chans.find? (fun c => c.id == chId)).map FChan.pins).getD 0

/-- The id the script resolves for a channel name: first name match. -/
def resolveId (l : List FChan) (n : String) : Option Nat :=
  (l.find? (fun c => c.name == n)).map FChan.id

/-- `build_read_only_overwrites` of the incremental script (its own copy: no
trailing filter, and `role_ids.get("Unverified")` with no default). -/
def buildReadOnlyOverwrites (everyoneRoleId : String) (roleIds : List (String × String)) :
    List Overwrite :=
  [⟨everyoneRoleId, OW_ROLE, toString (PERM_VIEW_CHANNEL ||| PERM_READ_MESSAGES_HISTORY),
    toString PERM_SEND_MESSAGES⟩]
  ++ (match dget roleIds "Unverified" with
      | some uid =>
        if uid ≠ "" then
          [⟨uid, OW_ROLE, toString (PERM_VIEW_CHANNEL ||| PERM_READ_MESSAGES_HISTORY),
            toString PERM_SEND_MESSAGES⟩]
        else []
      | none => [])

/-- Step 3 of the incremental script: for each definition, if a channel of
that name already exists in the fetched snapshot, skip creation but record
its id for pinning; otherwise create it under the BOTS category and record
the new id. -/
def createStage (snapshot : List FChan) (botsId : Nat) (ows : List Overwrite) :
    List FeedDef → Guild → List (String × Nat) → Guild × List (String × Nat) × List FReq
  | [], g, cm => (g, cm, [])
  | d :: ds, g, cm =>
    match snapshot.find? (fun c => c.name == d.name) with
    | some c => createStage snapshot botsId ows ds g (dinsert cm d.name c.id)
    | none =>
      let p := guildCreate g d.name d.ctype
      let k := createStage snapshot botsId ows ds p.1 (dinsert cm d.name p.2)
      (k.1, k.2.1, FReq.createChannel d.name botsId ows :: k.2.2)

/-- The per-message loop of step 4: a message containing the placeholder
token is skipped (logged, not aborted on); a clean message is sent and then
pinned by its returned id. -/
def pinMsgsLoop (chId : Nat) : List String → Guild → Guild × List FReq
  | [], g => (g, [])
  | msg :: rest, g =>
    if containsPlaceholder msg then pinMsgsLoop chId rest g
    else
      let s := guildSend g
      let g2 := guildPin s.1 chId
      let k := pinMsgsLoop chId rest g2
      (k.1, FReq.sendMessage chId msg :: FReq.pinMessage chId s.2 :: k.2)

/-- Step 4 of the incremental script: for each resolved channel, skip when no
messages are defined; list existing pins and skip the whole channel when it
already has at least one; otherwise send and pin each message. -/
def pinStage (pinned : String → List String) :
    List (String × Nat) → Guild → Guild × List FReq
  | [], g => (g, [])
  | (nm, chId) :: rest, g =>
    let msgs := pinned nm
    if msgs.isEmpty then pinStage pinned rest g
    else if 0 < pinCountOf g chId then
      let k := pinStage pinned rest g
      (k.1, FReq.getPins chId :: k.2)
    else
      let p := pinMsgsLoop chId msgs g
      let k := pinStage pinned rest p.1
      (k.1, FReq.getPins chId :: (p.2 ++ k.2))

/-- The outcome of one invocation of the incremental script. -/
structure FeedRun where
  guild : Guild
  created : List (String × Nat)
  reqs : List FReq
  exitCode : Option Nat
deriving DecidableEq

/-- The role name-to-id dict built from the fetched role list (later entries
with the same name overwrite earlier ones, as Python dict assignment). -/
def rolesMapOf (g : Guild) : List (String × String) :=
  g.roles.foldl (fun m p => dinsert m p.1 p.2) []

/-- `main` of `add_feed_channels.py` in non-dry-run mode against the
idealized guild: fetch channels (an empty or failed list exits 1), locate the
BOTS category (case-insensitively, exit 1 when absent), fetch roles (falsy
list exits 1), build the `read_only` overwrites, then the create and pin
stages. -/
def addFeed (guildId : String) (pinned : String → List String) (newChs : List FeedDef)
    (g0 : Guild) : FeedRun :=
  if g0.chans.isEmpty then ⟨g0, [], [FReq.getChannels], some 1⟩
  else
    match findBots g0.chans with
    | none => ⟨g0, [], [FReq.getChannels], some 1⟩
    | some botsId =>
      if g0.roles.isEmpty then ⟨g0, [], [FReq.getChannels, FReq.getRoles], some 1⟩
      else
        let ows := buildReadOnlyOverwrites guildId (rolesMapOf g0)
        let c := createStage g0.chans botsId ows newChs g0 []
        let p := pinStage pinned c.2.1 c.1
        ⟨p.1, c.2.1, FReq.getChannels :: FReq.getRoles :: (c.2.2 ++ p.2), none⟩

/-- C9: in the incremental variant the placeholder policy is per-message: the
per-message loop sends exactly the messages free of the token, in order, and
pins exactly as many; every resolved channel with defined messages is still
examined (its pin listing is issued); and a run that reaches the pin stage
finishes with no exit — the placeholder never aborts the incremental run. -/
theorem incremental_placeholder_skips_only_offending (guildId : String)
    (pinned : String → List String) (newChs : List FeedDef) (g0 : Guild)
    (chId : Nat) (msgs : List String) (g : Guild) (cm : List (String × Nat))
    (h1 : g0.chans.isEmpty = false) (h2 : (findBots g0.chans).isSome)
    (h3 : g0.roles.isEmpty = false) :
    sentContents (pinMsgsLoop chId msgs g).2
      = msgs.filter (fun m => !containsPlaceholder m)
    ∧ ((pinMsgsLoop chId msgs g).2.filter isFeedPin).length
      = (msgs.filter (fun m => !containsPlaceholder m)).length
    ∧ (∀ q ∈ cm, (pinned q.1).isEmpty = false →
        FReq.getPins q.2 ∈ (pinStage pinned cm g).2)
    ∧ (addFeed guildId pinned newChs g0).exitCode = none := by
  refine ⟨?_, ?_, ?_, ?_⟩
  · clear h1 h2 h3 cm
    induction msgs generalizing g with
    | nil => rfl
    | cons msg rest ih =>
      by_cases hc : containsPlaceholder msg = true
      · simp [pinMsgsLoop, hc, ih]
      · simp only [Bool.not_eq_true] at hc
        simp [pinMsgsLoop, hc, ih, sentContents_send, sentContents_pin]
  · clear h1 h2 h3 cm
    induction msgs generalizing g with
    | nil => rfl
    | cons msg rest ih =>
      by_cases hc : containsPlaceholder msg = true
      · simp [pinMsgsLoop, hc, ih]
      · simp only [Bool.not_eq_true] at hc
        simp [pinMsgsLoop, isFeedPin, hc, ih]
  · clear h1 h2 h3
    induction cm generalizing g with
    | nil => intro q hq; simp at hq
    | cons q0 rest ih =>
      intro q hq hne
      obtain ⟨nm, i⟩ := q0
      simp only [List.mem_cons] at hq
      rcases hq with hq | hq
      · subst hq
        simp only [pinStage, hne]
        rw [if_neg (by simp [hne])]
        split <;> simp
      · simp only [pinStage]
        split
        · exact ih g q hq hne
        · split
          · exact List.mem_cons_of_mem _ (ih g q hq hne)
          · refine List.mem_cons_of_mem _ (List.mem_append_right _ (ih _ q hq hne))
  · have h2' : ∃ b, findBots g0.chans = some b := Option.isSome_iff_exists.mp h2
    obtain ⟨b, hb⟩ := h2'
    simp [addFeed, h1, hb, h3]

/-! ## Idempotency of the incremental variant (C8) -/

/-- Pointwise relation between channel lists: same ids, names, and types in
the same order, pin counts only growing. -/
def chanShapeLE (l l' : List FChan) : Prop :=
  List.Forall₂ (fun c c' => c'.id = c.id ∧ c'.name = c.name ∧ c'.ctype = c.ctype
    ∧ c.pins ≤ c'.pins) l l'

theorem chanShapeLE_refl (l : List FChan) : chanShapeLE l l := by
  induction l with
  | nil => exact List.Forall₂.nil
  | cons c rest ih => exact List.Forall₂.cons ⟨rfl, rfl, rfl, le_refl _⟩ ih

theorem chanShapeLE_trans {l1 l2 l3 : List FChan}
    (h1 : chanShapeLE l1 l2) (h2 : chanShapeLE l2 l3) : chanShapeLE l1 l3 := by
  induction h1 generalizing l3 with
  | nil => cases h2; exact List.Forall₂.nil
  | cons hab hrest ih =>
    cases h2 with
    | cons hbc hrest2 =>
      exact List.Forall₂.cons
        ⟨hbc.1.trans hab.1, hbc.2.1.trans hab.2.1, hbc.2.2.1.trans hab.2.2.1,
         hab.2.2.2.trans hbc.2.2.2⟩ (ih hrest2)

theorem shape_map_bump (i : Nat) (l : List FChan) :
    chanShapeLE l (l.map (fun c => if c.id = i then { c with pins := c.pins + 1 } else c)) := by
  induction l with
  | nil => exact List.Forall₂.nil
  | cons c rest ih =>
    refine List.Forall₂.cons ?_ ih
    by_cases hc : c.id = i <;> simp [hc]

theorem guildPin_shape (g : Guild) (i : Nat) : chanShapeLE g.chans (guildPin g i).chans :=
  shape_map_bump i g.chans

theorem pinMsgsLoop_state (chId : Nat) :
    ∀ (msgs : List String) (g : Guild),
      chanShapeLE g.chans (pinMsgsLoop chId msgs g).1.chans
      ∧ (pinMsgsLoop chId msgs g).1.roles = g.roles := by
  intro msgs
  induction msgs with
  | nil => intro g; exact ⟨chanShapeLE_refl _, rfl⟩
  | cons msg rest ih =>
    intro g
    simp only [pinMsgsLoop]
    split
    · exact ih g
    · have h1 := ih (guildPin (guildSend g).1 chId)
      exact ⟨chanShapeLE_trans (guildPin_shape (guildSend g).1 chId) h1.1, h1.2⟩

theorem pinStage_state (pinned : String → List String) :
    ∀ (cm : List (String × Nat)) (g : Guild),
      chanShapeLE g.chans (pinStage pinned cm g).1.chans
      ∧ (pinStage pinned cm g).1.roles = g.roles := by
  intro cm
  induction cm with
  | nil => intro g; exact ⟨chanShapeLE_refl _, rfl⟩
  | cons q rest ih =>
    intro g
    obtain ⟨nm, i⟩ := q
    simp only [pinStage]
    split
    · exact ih g
    · split
      · exact ih g
      · have hm := pinMsgsLoop_state i (pinned nm) g
        have hr := ih (pinMsgsLoop i (pinned nm) g).1
        exact ⟨chanShapeLE_trans hm.1 hr.1, hr.2.trans hm.2⟩

theorem pinCount_mono_list {l l' : List FChan} (h : chanShapeLE l l') (i : Nat) :
    (((l.find? (fun c => c.id == i)).map FChan.pins).getD 0)
      ≤ (((l'.find? (fun c => c.id == i)).map FChan.pins).getD 0) := by
  induction h with
  | nil => simp
  | @cons c c' cs cs' hcc hrest ih =>
    by_cases hc : (c.id == i) = true
    · have hc' : (c'.id == i) = true := by rw [hcc.1]; exact hc
      simp only [List.find?_cons, hc, hc']
      simpa using hcc.2.2.2
    · have hcf : (c.id == i) = false := by simpa using hc
      have hcf' : (c'.id == i) = false := by rw [hcc.1]; exact hcf
      simp only [List.find?_cons, hcf, hcf']
      exact ih

theorem pinCountOf_mono {g g' : Guild} (h : chanShapeLE g.chans g'.chans) (i : Nat) :
    pinCountOf g i ≤ pinCountOf g' i := pinCount_mono_list h i

theorem shape_exists_id {l l' : List FChan} (h : chanShapeLE l l') {i : Nat} :
    (∃ c ∈ l, c.id = i) → ∃ c' ∈ l', c'.id = i := by
  induction h with
  | nil => rintro ⟨c, hc, _⟩; simp at hc
  | @cons c c' cs cs' hcc hrest ih =>
    rintro ⟨c0, hc0, hid⟩
    simp only [List.mem_cons] at hc0
    rcases hc0 with rfl | hc0
    · exact ⟨c', List.mem_cons_self _ _, hcc.1.trans hid⟩
    · obtain ⟨c2, hc2, hid2⟩ := ih ⟨c0, hc0, hid⟩
      exact ⟨c2, List.mem_cons_of_mem _ hc2, hid2⟩

theorem resolveId_shape {l l' : List FChan} (h : chanShapeLE l l') (n : String) :
    resolveId l' n = resolveId l n := by
  induction h with
  | nil => rfl
  | @cons c c' cs cs' hcc hrest ih =>
    simp only [resolveId]
    by_cases hc : (c.name == n) = true
    · have hc' : (c'.name == n) = true := by rw [hcc.2.1]; exact hc
      simp only [List.find?_cons, hc, hc']
      simp [hcc.1]
    · have hcf : (c.name == n) = false := by simpa using hc
      have hcf' : (c'.name == n) = false := by rw [hcc.2.1]; exact hcf
      simp only [List.find?_cons, hcf, hcf']
      exact ih

theorem findBots_aux_shape {l l' : List FChan} (h : chanShapeLE l l') :
    ∀ acc : Option Nat,
      l'.foldl (fun acc c => if c.ctype = 4 ∧ strUpper c.name = "BOTS" then some c.id else acc)
          acc
      = l.foldl (fun acc c => if c.ctype = 4 ∧ strUpper c.name = "BOTS" then some c.id else acc)
          acc := by
  induction h with
  | nil => intro acc; rfl
  | @cons c c' cs cs' hcc hrest ih =>
    intro acc
    simp only [List.foldl_cons]
    rw [hcc.1, hcc.2.1, hcc.2.2.1]
    exact ih _

theorem findBots_shape {l l' : List FChan} (h : chanShapeLE l l') :
    findBots l' = findBots l :=
  findBots_aux_shape h none

theorem findBots_foldl_isSome :
    ∀ (t : List FChan) (acc : Option Nat), acc.isSome →
      (t.foldl (fun acc c => if c.ctype = 4 ∧ strUpper c.name = "BOTS" then some c.id else acc)
          acc).isSome := by
  intro t
  induction t with
  | nil => intro acc h; exact h
  | cons c rest ih =>
    intro acc h
    simp only [List.foldl_cons]
    by_cases hc : c.ctype = 4 ∧ strUpper c.name = "BOTS"
    · rw [if_pos hc]
      exact ih _ rfl
    · rw [if_neg hc]
      exact ih _ h

theorem findBots_append_isSome {l : List FChan} (t : List FChan)
    (h : (findBots l).isSome) : (findBots (l ++ t)).isSome := by
  unfold findBots at *
  rw [List.foldl_append]
  exact findBots_foldl_isSome t _ h

theorem pin_bump_pos (i : Nat) :
    ∀ l : List FChan, (∃ c ∈ l, c.id = i) →
      0 < ((((l.map (fun c => if c.id = i then { c with pins := c.pins + 1 } else c)).find?
          (fun c => c.id == i)).map FChan.pins).getD 0) := by
  intro l
  induction l with
  | nil => rintro ⟨c, hc, _⟩; simp at hc
  | cons c rest ih =>
    rintro ⟨c0, hc0, hid⟩
    simp only [List.map_cons]
    by_cases hci : c.id = i
    · have hb : ((if c.id = i then ({ c with pins := c.pins + 1 } : FChan) else c).id == i)
          = true := by simp [hci]
      simp only [List.find?_cons, hb]
      simp [hci]
    · have hb : ((if c.id = i then ({ c with pins := c.pins + 1 } : FChan) else c).id == i)
          = false := by simp [hci]
      simp only [List.find?_cons, hb]
      simp only [List.mem_cons] at hc0
      rcases hc0 with rfl | hc0
      · exact absurd hid hci
      · exact ih ⟨c0, hc0, hid⟩

theorem guildPin_pos (g : Guild) (i : Nat)
    (h : ∃ c ∈ g.chans, c.id = i) : 0 < pinCountOf (guildPin g i) i :=
  pin_bump_pos i g.chans h

theorem pinMsgsLoop_pos (chId : Nat) :
    ∀ (msgs : List String) (g : Guild),
      (∃ m ∈ msgs, containsPlaceholder m = false) →
      (∃ c ∈ g.chans, c.id = chId) →
      0 < pinCountOf (pinMsgsLoop chId msgs g).1 chId := by
  intro msgs
  induction msgs with
  | nil => rintro g ⟨m, hm, _⟩ _; simp at hm
  | cons msg rest ih =>
    rintro g ⟨m, hm, hmc⟩ hex
    simp only [pinMsgsLoop]
    split
    · rename_i hc
      simp only [List.mem_cons] at hm
      rcases hm with rfl | hm
      · rw [hmc] at hc; exact absurd hc (by simp)
      · exact ih g ⟨m, hm, hmc⟩ hex
    · have hpos := guildPin_pos (guildSend g).1 chId hex
      have hmono := pinCountOf_mono
        (pinMsgsLoop_state chId rest (guildPin (guildSend g).1 chId)).1 chId
      exact lt_of_lt_of_le hpos hmono

theorem pinStage_mono (pinned : String → List String) (cm : List (String × Nat)) (g : Guild)
    (i : Nat) : pinCountOf g i ≤ pinCountOf (pinStage pinned cm g).1 i :=
  pinCountOf_mono (pinStage_state pinned cm g).1 i

theorem pinStage_pins (pinned : String → List String) :
    ∀ (cm : List (String × Nat)) (g : Guild),
      (∀ q ∈ cm, ∃ c ∈ g.chans, c.id = q.2) →
      ∀ q ∈ cm, (pinned q.1).isEmpty = false →
        (∃ m ∈ pinned q.1, containsPlaceholder m = false) →
        0 < pinCountOf (pinStage pinned cm g).1 q.2 := by
  intro cm
  induction cm with
  | nil => intro g _ q hq; simp at hq
  | cons q0 rest ih =>
    intro g hchan q hq hne hcl
    obtain ⟨nm, i⟩ := q0
    simp only [List.mem_cons] at hq
    simp only [pinStage]
    rcases hq with rfl | hq
    · split
      · rename_i hemp
        simp only at hne
        rw [hne] at hemp
        exact absurd hemp (by simp)
      · split
        · rename_i hpos
          exact lt_of_lt_of_le hpos (pinStage_mono pinned rest g _)
        · have hex : ∃ c ∈ g.chans, c.id = (nm, i).2 := hchan (nm, i) (by simp)
          have h1 := pinMsgsLoop_pos i (pinned nm) g (by simpa using hcl) (by simpa using hex)
          exact lt_of_lt_of_le h1 (pinStage_mono pinned rest _ _)
    · have htail : ∀ p ∈ rest, ∃ c ∈ g.chans, c.id = p.2 :=
        fun p hp => hchan p (List.mem_cons_of_mem _ hp)
      split
      · exact ih g htail q hq hne hcl
      · split
        · exact ih g htail q hq hne hcl
        · refine ih (pinMsgsLoop i (pinned nm) g).1 ?_ q hq hne hcl
          intro p hp
          exact shape_exists_id (pinMsgsLoop_state i (pinned nm) g).1 (htail p hp)

theorem pinMsgsLoop_all_placeholder (chId : Nat) :
    ∀ (msgs : List String) (g : Guild),
      (∀ m ∈ msgs, containsPlaceholder m = true) →
      pinMsgsLoop chId msgs g = (g, []) := by
  intro msgs
  induction msgs with
  | nil => intro g _; rfl
  | cons msg rest ih =>
    intro g hall
    simp only [pinMsgsLoop]
    rw [if_pos (hall msg (by simp))]
    exact ih g (fun m hm => hall m (List.mem_cons_of_mem _ hm))

theorem pinMsgsLoop_no_create (chId : Nat) :
    ∀ (msgs : List String) (g : Guild),
      ∀ r ∈ (pinMsgsLoop chId msgs g).2, isFeedCreate r = false := by
  intro msgs
  induction msgs with
  | nil => intro g r hr; simp [pinMsgsLoop] at hr
  | cons msg rest ih =>
    intro g r hr
    simp only [pinMsgsLoop] at hr
    split at hr
    · exact ih g r hr
    · simp only [List.mem_cons] at hr
      rcases hr with rfl | rfl | hr
      · rfl
      · rfl
      · exact ih _ r hr

theorem pinStage_no_create (pinned : String → List String) :
    ∀ (cm : List (String × Nat)) (g : Guild),
      ∀ r ∈ (pinStage pinned cm g).2, isFeedCreate r = false := by
  intro cm
  induction cm with
  | nil => intro g r hr; simp [pinStage] at hr
  | cons q0 rest ih =>
    intro g r hr
    obtain ⟨nm, i⟩ := q0
    simp only [pinStage] at hr
    split at hr
    · exact ih g r hr
    · split at hr
      · simp only [List.mem_cons] at hr
        rcases hr with rfl | hr
        · rfl
        · exact ih g r hr
      · simp only [List.mem_cons, List.mem_append] at hr
        rcases hr with rfl | hr | hr
        · rfl
        · exact pinMsgsLoop_no_create i (pinned nm) g r hr
        · exact ih _ r hr

theorem pinStage_skips (pinned : String → List String) :
    ∀ (cm : List (String × Nat)) (g : Guild),
      (∀ q ∈ cm, (pinned q.1).isEmpty = true ∨ 0 < pinCountOf g q.2
        ∨ ∀ m ∈ pinned q.1, containsPlaceholder m = true) →
      (pinStage pinned cm g).1 = g
      ∧ ∀ r ∈ (pinStage pinned cm g).2, isFeedSend r = false ∧ isFeedPin r = false := by
  intro cm
  induction cm with
  | nil => intro g _; exact ⟨rfl, by intro r hr; simp [pinStage] at hr⟩
  | cons q0 rest ih =>
    intro g hyp
    obtain ⟨nm, i⟩ := q0
    have hh := hyp (nm, i) (by simp)
    have htail : ∀ q ∈ rest, (pinned q.1).isEmpty = true ∨ 0 < pinCountOf g q.2
        ∨ ∀ m ∈ pinned q.1, containsPlaceholder m = true :=
      fun q hq => hyp q (List.mem_cons_of_mem _ hq)
    simp only [pinStage]
    split
    · exact ih g htail
    · split
      · obtain ⟨h1, h2⟩ := ih g htail
        refine ⟨h1, ?_⟩
        intro r hr
        rcases List.mem_cons.mp hr with rfl | hr
        · exact ⟨rfl, rfl⟩
        · exact h2 r hr
      · rename_i hnemp hnpos
        have hall : ∀ m ∈ pinned nm, containsPlaceholder m = true := by
          rcases hh with hh | hh | hh
          · exact absurd hh (by simpa using hnemp)
          · exact absurd hh (by simpa using hnpos)
          · simpa using hh
        rw [pinMsgsLoop_all_placeholder i (pinned nm) g hall]
        obtain ⟨h1, h2⟩ := ih g htail
        refine ⟨h1, ?_⟩
        intro r hr
        rcases List.mem_cons.mp hr with rfl | hr
        · exact ⟨rfl, rfl⟩
        · have hr' : r ∈ (pinStage pinned rest g).2 := by simpa using hr
          exact h2 r hr'

theorem dget_dinsert_self {α : Type} :
    ∀ (m : List (String × α)) (k : String) (v : α), dget (dinsert m k v) k = some v := by
  intro m
  induction m with
  | nil => intro k v; simp [dinsert, dget]
  | cons p rest ih =>
    intro k v
    obtain ⟨k', v'⟩ := p
    simp only [dinsert]
    by_cases hk : k' = k
    · rw [if_pos hk]
      simp [dget, hk]
    · rw [if_neg hk]
      simp only [dget]
      rw [if_neg hk]
      exact ih k v

theorem dget_dinsert_ne {α : Type} :
    ∀ (m : List (String × α)) (k k' : String) (v : α), k' ≠ k →
      dget (dinsert m k v) k' = dget m k' := by
  intro m
  induction m with
  | nil =>
    intro k k' v h
    simp [dinsert, dget, Ne.symm h]
  | cons p rest ih =>
    intro k k' v h
    obtain ⟨k0, v0⟩ := p
    simp only [dinsert]
    by_cases hk : k0 = k
    · rw [if_pos hk]
      simp only [dget]
      by_cases hk' : k0 = k'
      · exact absurd (hk'.symm.trans hk) h
      · rw [if_neg hk', if_neg hk']
    · rw [if_neg hk]
      simp only [dget]
      by_cases hk' : k0 = k'
      · rw [if_pos hk', if_pos hk']
      · rw [if_neg hk', if_neg hk']
        exact ih k k' v h

theorem dget_isSome_dinsert {α : Type} (m : List (String × α)) (k k' : String) (v : α)
    (h : (dget m k').isSome) : (dget (dinsert m k v) k').isSome := by
  by_cases hk : k' = k
  · subst hk
    rw [dget_dinsert_self]
    rfl
  · rw [dget_dinsert_ne m k k' v hk]
    exact h

theorem dget_mem {α : Type} :
    ∀ (m : List (String × α)) (k : String) (v : α), dget m k = some v → (k, v) ∈ m := by
  intro m
  induction m with
  | nil => intro k v h; simp [dget] at h
  | cons p rest ih =>
    intro k v h
    obtain ⟨k0, v0⟩ := p
    simp only [dget] at h
    split at h
    · rename_i hk
      obtain rfl := Option.some.injEq _ _ ▸ h
      simp only [Option.some.injEq] at h
      subst hk
      simp [h]
    · exact List.mem_cons_of_mem _ (ih k v h)

theorem dinsert_mem {α : Type} :
    ∀ (m : List (String × α)) (k : String) (v : α),
      ∀ q ∈ dinsert m k v, q ∈ m ∨ q = (k, v) := by
  intro m
  induction m with
  | nil => intro k v q hq; simp [dinsert] at hq; simp [hq]
  | cons p rest ih =>
    intro k v q hq
    obtain ⟨k0, v0⟩ := p
    simp only [dinsert] at hq
    split at hq
    · rename_i hk
      rcases List.mem_cons.mp hq with rfl | hq
      · subst hk
        exact Or.inr rfl
      · exact Or.inl (List.mem_cons_of_mem _ hq)
    · rcases List.mem_cons.mp hq with rfl | hq
      · exact Or.inl (List.mem_cons_self _ _)
      · rcases ih k v q hq with h | h
        · exact Or.inl (List.mem_cons_of_mem _ h)
        · exact Or.inr h

theorem createStage_roles (snapshot : List FChan) (botsId : Nat) (ows : List Overwrite) :
    ∀ (ds : List FeedDef) (g : Guild) (cm : List (String × Nat)),
      (createStage snapshot botsId ows ds g cm).1.roles = g.roles := by
  intro ds
  induction ds with
  | nil => intro g cm; rfl
  | cons d rest ih =>
    intro g cm
    simp only [createStage]
    split
    · exact ih g _
    · exact ih _ _

theorem createStage_chans (snapshot : List FChan) (botsId : Nat) (ows : List Overwrite) :
    ∀ (ds : List FeedDef) (g : Guild) (cm : List (String × Nat)),
      ∃ t, (createStage snapshot botsId ows ds g cm).1.chans = g.chans ++ t := by
  intro ds
  induction ds with
  | nil => intro g cm; exact ⟨[], by simp [createStage]⟩
  | cons d rest ih =>
    intro g cm
    simp only [createStage]
    split
    · exact ih g _
    · obtain ⟨t, ht⟩ := ih (guildCreate g d.name d.ctype).1 _
      refine ⟨⟨g.nextId, d.name, d.ctype, 0⟩ :: t, ?_⟩
      rw [ht]
      simp [guildCreate]

theorem createStage_all_found (snapshot : List FChan) (botsId : Nat) (ows : List Overwrite) :
    ∀ (ds : List FeedDef) (g : Guild) (cm : List (String × Nat)),
      (∀ d ∈ ds, (snapshot.find? (fun c => c.name == d.name)).isSome) →
      (createStage snapshot botsId ows ds g cm).1 = g
      ∧ (createStage snapshot botsId ows ds g cm).2.2 = [] := by
  intro ds
  induction ds with
  | nil => intro g cm _; exact ⟨rfl, rfl⟩
  | cons d rest ih =>
    intro g cm hall
    have hd := hall d (by simp)
    rcases hf : snapshot.find? (fun c => c.name == d.name) with _ | c
    · rw [hf] at hd; exact absurd hd (by simp)
    · simp only [createStage, hf]
      exact ih g _ (fun x hx => hall x (List.mem_cons_of_mem _ hx))

theorem createStage_all_found_mem (snapshot : List FChan) (botsId : Nat)
    (ows : List Overwrite) :
    ∀ (ds : List FeedDef) (g : Guild) (cm : List (String × Nat)),
      (∀ d ∈ ds, (snapshot.find? (fun c => c.name == d.name)).isSome) →
      ∀ q ∈ (createStage snapshot botsId ows ds g cm).2.1,
        q ∈ cm ∨ resolveId snapshot q.1 = some q.2 := by
  intro ds
  induction ds with
  | nil => intro g cm _ q hq; exact Or.inl hq
  | cons d rest ih =>
    intro g cm hall q hq
    have hd := hall d (by simp)
    rcases hf : snapshot.find? (fun c => c.name == d.name) with _ | c
    · rw [hf] at hd; exact absurd hd (by simp)
    · simp only [createStage, hf] at hq
      rcases ih g _ (fun x hx => hall x (List.mem_cons_of_mem _ hx)) q hq with h | h
      · rcases dinsert_mem cm d.name c.id q h with h2 | h2
        · exact Or.inl h2
        · subst h2
          refine Or.inr ?_
          simp [resolveId, hf]
      · exact Or.inr h

theorem createStage_mem_names (snapshot : List FChan) (botsId : Nat) (ows : List Overwrite) :
    ∀ (ds : List FeedDef) (g : Guild) (cm : List (String × Nat)),
      ∀ q ∈ (createStage snapshot botsId ows ds g cm).2.1,
        q ∈ cm ∨ ∃ d ∈ ds, q.1 = d.name := by
  intro ds
  induction ds with
  | nil => intro g cm q hq; exact Or.inl hq
  | cons d rest ih =>
    intro g cm q hq
    simp only [createStage] at hq
    have step : ∀ (g' : Guild) (v : Nat),
        q ∈ (createStage snapshot botsId ows rest g' (dinsert cm d.name v)).2.1 →
        q ∈ cm ∨ ∃ x ∈ d :: rest, q.1 = x.name := by
      intro g' v hq'
      rcases ih g' _ q hq' with h | ⟨x, hx, hn⟩
      · rcases dinsert_mem cm d.name v q h with h2 | h2
        · exact Or.inl h2
        · subst h2
          exact Or.inr ⟨d, by simp, rfl⟩
      · exact Or.inr ⟨x, List.mem_cons_of_mem _ hx, hn⟩
    split at hq
    · exact step g _ hq
    · exact step _ _ hq

theorem dget_createStage_other (snapshot : List FChan) (botsId : Nat) (ows : List Overwrite) :
    ∀ (ds : List FeedDef) (g : Guild) (cm : List (String × Nat)) (n : String),
      (∀ d ∈ ds, d.name ≠ n) →
      dget (createStage snapshot botsId ows ds g cm).2.1 n = dget cm n := by
  intro ds
  induction ds with
  | nil => intro g cm n _; rfl
  | cons d rest ih =>
    intro g cm n hne
    have htail : ∀ x ∈ rest, x.name ≠ n := fun x hx => hne x (List.mem_cons_of_mem _ hx)
    have hhd : n ≠ d.name := fun h => hne d (by simp) h.symm
    simp only [createStage]
    split
    · rw [ih g _ n htail, dget_dinsert_ne cm d.name n _ hhd]
    · rw [ih _ _ n htail, dget_dinsert_ne cm d.name n _ hhd]

theorem createStage_resolves (snapshot : List FChan) (botsId : Nat) (ows : List Overwrite) :
    ∀ (ds : List FeedDef) (g : Guild) (cm : List (String × Nat)) (n : String),
      ((∃ d ∈ ds, d.name = n) ∨ (dget cm n).isSome) →
      (dget (createStage snapshot botsId ows ds g cm).2.1 n).isSome := by
  intro ds
  induction ds with
  | nil =>
    intro g cm n h
    rcases h with ⟨d, hd, _⟩ | h
    · simp at hd
    · exact h
  | cons d rest ih =>
    intro g cm n h
    have step : ∀ (g' : Guild) (v : Nat),
        (dget (createStage snapshot botsId ows rest g' (dinsert cm d.name v)).2.1 n).isSome := by
      intro g' v
      rcases h with ⟨d0, hd0, hn⟩ | h
      · rcases List.mem_cons.mp hd0 with rfl | hd0
        · refine ih g' _ n (Or.inr ?_)
          subst hn
          rw [dget_dinsert_self]
          rfl
        · exact ih g' _ n (Or.inl ⟨d0, hd0, hn⟩)
      · exact ih g' _ n (Or.inr (dget_isSome_dinsert cm d.name n v h))
    simp only [createStage]
    split
    · exact step g _
    · exact step _ _

theorem createStage_cm_chans (snapshot : List FChan) (botsId : Nat) (ows : List Overwrite) :
    ∀ (ds : List FeedDef) (g : Guild) (cm : List (String × Nat)) (t : List FChan),
      g.chans = snapshot ++ t →
      (∀ q ∈ cm, ∃ c ∈ g.chans, c.id = q.2) →
      ∀ q ∈ (createStage snapshot botsId ows ds g cm).2.1,
        ∃ c ∈ (createStage snapshot botsId ows ds g cm).1.chans, c.id = q.2 := by
  intro ds
  induction ds with
  | nil => intro g cm t _ hcm q hq; exact hcm q hq
  | cons d rest ih =>
    intro g cm t hpre hcm q hq
    simp only [createStage] at hq ⊢
    split at hq <;> rename_i hf
    · refine ih g _ t hpre ?_ q hq
      intro p hp
      rcases dinsert_mem cm d.name _ p hp with h | h
      · exact hcm p h
      · subst h
        rename_i c
        have hcs : c ∈ snapshot := List.mem_of_find?_eq_some hf
        exact ⟨c, by rw [hpre]; exact List.mem_append_left _ hcs, rfl⟩
    · refine ih (guildCreate g d.name d.ctype).1 _ (t ++ [⟨g.nextId, d.name, d.ctype, 0⟩])
        ?_ ?_ q hq
      · simp [guildCreate, hpre]
      · intro p hp
        rcases dinsert_mem cm d.name _ p hp with h | h
        · obtain ⟨c, hc, hid⟩ := hcm p h
          exact ⟨c, by simp [guildCreate, hc], hid⟩
        · subst h
          exact ⟨⟨g.nextId, d.name, d.ctype, 0⟩, by simp [guildCreate], rfl⟩

theorem find?_append_some {α : Type} (p : α → Bool) :
    ∀ (l1 : List α) (l2 : List α) (a : α),
      l1.find? p = some a → (l1 ++ l2).find? p = some a := by
  intro l1
  induction l1 with
  | nil => intro l2 a h; simp [List.find?] at h
  | cons c rest ih =>
    intro l2 a h
    by_cases hc : p c = true
    · simp only [List.cons_append, List.find?_cons, hc] at h ⊢
      exact h
    · have hcf : p c = false := by simpa using hc
      simp only [List.cons_append, List.find?_cons, hcf] at h ⊢
      exact ih l2 a h

theorem find?_append_none {α : Type} (p : α → Bool) :
    ∀ (l1 : List α) (l2 : List α),
      l1.find? p = none → (l1 ++ l2).find? p = l2.find? p := by
  intro l1
  induction l1 with
  | nil => intro l2 _; rfl
  | cons c rest ih =>
    intro l2 h
    by_cases hc : p c = true
    · simp only [List.find?_cons, hc] at h
      exact absurd h (by simp)
    · have hcf : p c = false := by simpa using hc
      simp only [List.cons_append, List.find?_cons, hcf] at h ⊢
      exact ih l2 h

theorem find?_none_of_all {α : Type} (p : α → Bool) :
    ∀ l : List α, (∀ x ∈ l, p x = false) → l.find? p = none := by
  intro l
  induction l with
  | nil => intro _; rfl
  | cons c rest ih =>
    intro h
    simp only [List.find?_cons, h c (by simp)]
    exact ih (fun x hx => h x (List.mem_cons_of_mem _ hx))

/-- After the create stage, each catalog entry's name resolves both in the
recorded map and by first-name-match in the live channel list, to the same
id. -/
theorem createStage_post (snapshot : List FChan) (botsId : Nat) (ows : List Overwrite) :
    ∀ (ds : List FeedDef) (g : Guild) (cm : List (String × Nat)) (t : List FChan),
      g.chans = snapshot ++ t →
      (∀ c ∈ t, ∀ d ∈ ds, c.name ≠ d.name) →
      (ds.map FeedDef.name).Nodup →
      ∀ d ∈ ds,
        ∃ i, dget (createStage snapshot botsId ows ds g cm).2.1 d.name = some i
          ∧ resolveId (createStage snapshot botsId ows ds g cm).1.chans d.name = some i := by
  intro ds
  induction ds with
  | nil => intro g cm t _ _ _ d hd; simp at hd
  | cons d0 rest ih =>
    intro g cm t hpre ht hnd d hd
    have hnd' : (∀ x ∈ rest, ¬x.name = d0.name) ∧ (rest.map FeedDef.name).Nodup := by
      simpa using hnd
    rcases hf : snapshot.find? (fun c => c.name == d0.name) with _ | c <;>
      simp only [createStage, hf]
    · rcases List.mem_cons.mp hd with rfl | hd
      · refine ⟨g.nextId, ?_, ?_⟩
        · rw [dget_createStage_other snapshot botsId ows rest _ _ d.name
            (fun x hx => hnd'.1 x hx)]
          exact dget_dinsert_self cm d.name g.nextId
        · rw [show (guildCreate g d.name d.ctype).2 = g.nextId from rfl]
          obtain ⟨t2, ht2⟩ := createStage_chans snapshot botsId ows rest
            (guildCreate g d.name d.ctype).1 (dinsert cm d.name g.nextId)
          have hchans : (createStage snapshot botsId ows rest (guildCreate g d.name d.ctype).1
              (dinsert cm d.name g.nextId)).1.chans
              = snapshot ++ (t ++ ((⟨g.nextId, d.name, d.ctype, 0⟩ : FChan) :: t2)) := by
            rw [ht2]
            simp [guildCreate, hpre]
          rw [hchans]
          simp only [resolveId]
          rw [find?_append_none _ snapshot _ hf]
          rw [find?_append_none _ t _ (find?_none_of_all _ t
            (fun x hx => by simpa using ht x hx d (by simp)))]
          have hb : ((⟨g.nextId, d.name, d.ctype, 0⟩ : FChan).name == d.name) = true := by
            simp
          simp only [List.find?_cons, hb]
          rfl
      · refine ih (guildCreate g d0.name d0.ctype).1 _
          (t ++ [⟨g.nextId, d0.name, d0.ctype, 0⟩]) ?_ ?_ hnd'.2 d hd
        · simp [guildCreate, hpre]
        · intro c hc x hx
          rcases List.mem_append.mp hc with hc | hc
          · exact ht c hc x (List.mem_cons_of_mem _ hx)
          · have hcn : c = ⟨g.nextId, d0.name, d0.ctype, 0⟩ := by simpa using hc
            subst hcn
            exact fun h => (hnd'.1 x hx) h.symm
    · rcases List.mem_cons.mp hd with rfl | hd
      · refine ⟨c.id, ?_, ?_⟩
        · rw [dget_createStage_other snapshot botsId ows rest _ _ d.name
            (fun x hx => hnd'.1 x hx)]
          exact dget_dinsert_self cm d.name c.id
        · obtain ⟨t2, ht2⟩ := createStage_chans snapshot botsId ows rest g
            (dinsert cm d.name c.id)
          have hchans : (createStage snapshot botsId ows rest g
              (dinsert cm d.name c.id)).1.chans = snapshot ++ (t ++ t2) := by
            rw [ht2, hpre]
            simp
          rw [hchans]
          simp only [resolveId]
          rw [find?_append_some _ snapshot _ c hf]
          rfl
      · exact ih g _ t hpre
          (fun c hc x hx => ht c hc x (List.mem_cons_of_mem _ hx)) hnd'.2 d hd

theorem isEmpty_false_of_ne {α : Type} {l : List α} (h : l ≠ []) : l.isEmpty = false := by
  cases l with
  | nil => exact absurd rfl h
  | cons _ _ => rfl

/-- The main branch of `addFeed`, entered when the three early-exit checks
pass. -/
theorem addFeed_main (guildId : String) (pinned : String → List String)
    (newChs : List FeedDef) (g0 : Guild) (botsId : Nat)
    (h0 : g0.chans.isEmpty = false) (hfb : findBots g0.chans = some botsId)
    (hr0 : g0.roles.isEmpty = false) :
    addFeed guildId pinned newChs g0
      = ⟨(pinStage pinned
            (createStage g0.chans botsId (buildReadOnlyOverwrites guildId (rolesMapOf g0))
              newChs g0 []).2.1
            (createStage g0.chans botsId (buildReadOnlyOverwrites guildId (rolesMapOf g0))
              newChs g0 []).1).1,
         (createStage g0.chans botsId (buildReadOnlyOverwrites guildId (rolesMapOf g0))
            newChs g0 []).2.1,
         FReq.getChannels :: FReq.getRoles ::
           ((createStage g0.chans botsId (buildReadOnlyOverwrites guildId (rolesMapOf g0))
              newChs g0 []).2.2
            ++ (pinStage pinned
                  (createStage g0.chans botsId
                    (buildReadOnlyOverwrites guildId (rolesMapOf g0)) newChs g0 []).2.1
                  (createStage g0.chans botsId
                    (buildReadOnlyOverwrites guildId (rolesMapOf g0)) newChs g0 []).1).2),
         none⟩ := by
  simp [addFeed, h0, hfb, hr0]

/-- C8: running the incremental add-channels operation twice in sequence
issues, on the second run, no channel-creation, no message-send, and no pin
request — every catalog name already exists then, so creation is skipped,
and every channel pinned by the first run already has a pin, so its pin
sequence is skipped; the second run leaves the channel list untouched; and
when the first run completed, the second run still resolves a live id for
every catalog entry. -/
theorem addFeed_twice_idempotent (guildId : String) (pinned : String → List String)
    (newChs : List FeedDef) (g0 : Guild)
    (hnd : (newChs.map FeedDef.name).Nodup) :
    (∀ q ∈ (addFeed guildId pinned newChs (addFeed guildId pinned newChs g0).guild).reqs,
        isFeedCreate q = false ∧ isFeedSend q = false ∧ isFeedPin q = false)
    ∧ (addFeed guildId pinned newChs (addFeed guildId pinned newChs g0).guild).guild.chans
        = (addFeed guildId pinned newChs g0).guild.chans
    ∧ ((addFeed guildId pinned newChs g0).exitCode = none →
        ∀ d ∈ newChs,
          (dget (addFeed guildId pinned newChs
              (addFeed guildId pinned newChs g0).guild).created d.name).isSome) := by
  cases h0 : g0.chans.isEmpty with
  | true =>
    simp [addFeed, h0, isFeedCreate, isFeedSend, isFeedPin]
  | false =>
    cases hfb : findBots g0.chans with
    | none =>
      simp [addFeed, h0, hfb, isFeedCreate, isFeedSend, isFeedPin]
    | some botsId =>
      cases hr0 : g0.roles.isEmpty with
      | true =>
        simp [addFeed, h0, hfb, hr0, isFeedCreate, isFeedSend, isFeedPin]
      | false =>
        have haf1 := addFeed_main guildId pinned newChs g0 botsId h0 hfb hr0
        have hg0ne : g0.chans ≠ [] := by
          intro hnil
          rw [hnil] at h0
          simp at h0
        have hgcroles : (createStage g0.chans botsId (buildReadOnlyOverwrites guildId (rolesMapOf g0)) newChs g0 []).1.roles = g0.roles := createStage_roles _ _ _ _ _ _
        obtain ⟨t1, ht1⟩ := createStage_chans g0.chans botsId
          (buildReadOnlyOverwrites guildId (rolesMapOf g0)) newChs g0 []
        have hshape : chanShapeLE (createStage g0.chans botsId (buildReadOnlyOverwrites guildId (rolesMapOf g0)) newChs g0 []).1.chans (pinStage pinned (createStage g0.chans botsId (buildReadOnlyOverwrites guildId (rolesMapOf g0)) newChs g0 []).2.1 (createStage g0.chans botsId (buildReadOnlyOverwrites guildId (rolesMapOf g0)) newChs g0 []).1).1.chans :=
          (pinStage_state pinned (createStage g0.chans botsId (buildReadOnlyOverwrites guildId (rolesMapOf g0)) newChs g0 []).2.1 (createStage g0.chans botsId (buildReadOnlyOverwrites guildId (rolesMapOf g0)) newChs g0 []).1).1
        have hg1roles : (pinStage pinned (createStage g0.chans botsId (buildReadOnlyOverwrites guildId (rolesMapOf g0)) newChs g0 []).2.1 (createStage g0.chans botsId (buildReadOnlyOverwrites guildId (rolesMapOf g0)) newChs g0 []).1).1.roles = g0.roles :=
          ((pinStage_state pinned (createStage g0.chans botsId (buildReadOnlyOverwrites guildId (rolesMapOf g0)) newChs g0 []).2.1 (createStage g0.chans botsId (buildReadOnlyOverwrites guildId (rolesMapOf g0)) newChs g0 []).1).2).trans hgcroles
        have hg1ne : (pinStage pinned (createStage g0.chans botsId (buildReadOnlyOverwrites guildId (rolesMapOf g0)) newChs g0 []).2.1 (createStage g0.chans botsId (buildReadOnlyOverwrites guildId (rolesMapOf g0)) newChs g0 []).1).1.chans ≠ [] := by
          intro hnil
          have hlen := hshape.length_eq
          rw [hnil, ht1] at hlen
          simp at hlen
          exact hg0ne hlen.1
        have hg1len : (pinStage pinned (createStage g0.chans botsId (buildReadOnlyOverwrites guildId (rolesMapOf g0)) newChs g0 []).2.1 (createStage g0.chans botsId (buildReadOnlyOverwrites guildId (rolesMapOf g0)) newChs g0 []).1).1.chans.isEmpty = false := isEmpty_false_of_ne hg1ne
        have hfbsome : (findBots (pinStage pinned (createStage g0.chans botsId (buildReadOnlyOverwrites guildId (rolesMapOf g0)) newChs g0 []).2.1 (createStage g0.chans botsId (buildReadOnlyOverwrites guildId (rolesMapOf g0)) newChs g0 []).1).1.chans).isSome := by
          rw [findBots_shape hshape, ht1]
          exact findBots_append_isSome t1 (by rw [hfb]; rfl)
        obtain ⟨b2, hb2⟩ := Option.isSome_iff_exists.mp hfbsome
        have hr0g1 : (pinStage pinned (createStage g0.chans botsId (buildReadOnlyOverwrites guildId (rolesMapOf g0)) newChs g0 []).2.1 (createStage g0.chans botsId (buildReadOnlyOverwrites guildId (rolesMapOf g0)) newChs g0 []).1).1.roles.isEmpty = false := by
          rw [hg1roles]
          exact hr0
        have haf2 := addFeed_main guildId pinned newChs (pinStage pinned (createStage g0.chans botsId (buildReadOnlyOverwrites guildId (rolesMapOf g0)) newChs g0 []).2.1 (createStage g0.chans botsId (buildReadOnlyOverwrites guildId (rolesMapOf g0)) newChs g0 []).1).1 b2 hg1len hb2 hr0g1
        have hpost := createStage_post g0.chans botsId
          (buildReadOnlyOverwrites guildId (rolesMapOf g0)) newChs g0 [] [] (by simp)
          (by simp) hnd
        have hres1 : ∀ d ∈ newChs, ∃ i, dget (createStage g0.chans botsId (buildReadOnlyOverwrites guildId (rolesMapOf g0)) newChs g0 []).2.1 d.name = some i
            ∧ resolveId (pinStage pinned (createStage g0.chans botsId (buildReadOnlyOverwrites guildId (rolesMapOf g0)) newChs g0 []).2.1 (createStage g0.chans botsId (buildReadOnlyOverwrites guildId (rolesMapOf g0)) newChs g0 []).1).1.chans d.name = some i := by
          intro d hd
          obtain ⟨i, hA, hB⟩ := hpost d hd
          exact ⟨i, hA, by rw [resolveId_shape hshape]; exact hB⟩
        have hfound2 : ∀ d ∈ newChs,
            ((pinStage pinned (createStage g0.chans botsId (buildReadOnlyOverwrites guildId (rolesMapOf g0)) newChs g0 []).2.1 (createStage g0.chans botsId (buildReadOnlyOverwrites guildId (rolesMapOf g0)) newChs g0 []).1).1.chans.find? (fun c => c.name == d.name)).isSome := by
          intro d hd
          obtain ⟨i, _, hB⟩ := hres1 d hd
          simp only [resolveId] at hB
          rcases hf2 : (pinStage pinned (createStage g0.chans botsId (buildReadOnlyOverwrites guildId (rolesMapOf g0)) newChs g0 []).2.1 (createStage g0.chans botsId (buildReadOnlyOverwrites guildId (rolesMapOf g0)) newChs g0 []).1).1.chans.find? (fun c => c.name == d.name) with _ | c
          · rw [hf2] at hB
            simp at hB
          · rw [hf2]
            rfl
        have hcs2 := createStage_all_found (pinStage pinned (createStage g0.chans botsId (buildReadOnlyOverwrites guildId (rolesMapOf g0)) newChs g0 []).2.1 (createStage g0.chans botsId (buildReadOnlyOverwrites guildId (rolesMapOf g0)) newChs g0 []).1).1.chans b2 (buildReadOnlyOverwrites guildId (rolesMapOf (pinStage pinned (createStage g0.chans botsId (buildReadOnlyOverwrites guildId (rolesMapOf g0)) newChs g0 []).2.1 (createStage g0.chans botsId (buildReadOnlyOverwrites guildId (rolesMapOf g0)) newChs g0 []).1).1)) newChs (pinStage pinned (createStage g0.chans botsId (buildReadOnlyOverwrites guildId (rolesMapOf g0)) newChs g0 []).2.1 (createStage g0.chans botsId (buildReadOnlyOverwrites guildId (rolesMapOf g0)) newChs g0 []).1).1 [] hfound2
        have hchan1 : ∀ q ∈ (createStage g0.chans botsId (buildReadOnlyOverwrites guildId (rolesMapOf g0)) newChs g0 []).2.1, ∃ c ∈ (createStage g0.chans botsId (buildReadOnlyOverwrites guildId (rolesMapOf g0)) newChs g0 []).1.chans, c.id = q.2 :=
          createStage_cm_chans g0.chans botsId
            (buildReadOnlyOverwrites guildId (rolesMapOf g0)) newChs g0 [] [] (by simp)
            (by simp)
        have hG1pins : ∀ d ∈ newChs, (pinned d.name).isEmpty = false →
            (∃ m ∈ pinned d.name, containsPlaceholder m = false) →
            ∀ i, resolveId (pinStage pinned (createStage g0.chans botsId (buildReadOnlyOverwrites guildId (rolesMapOf g0)) newChs g0 []).2.1 (createStage g0.chans botsId (buildReadOnlyOverwrites guildId (rolesMapOf g0)) newChs g0 []).1).1.chans d.name = some i → 0 < pinCountOf (pinStage pinned (createStage g0.chans botsId (buildReadOnlyOverwrites guildId (rolesMapOf g0)) newChs g0 []).2.1 (createStage g0.chans botsId (buildReadOnlyOverwrites guildId (rolesMapOf g0)) newChs g0 []).1).1 i := by
          intro d hd hne hcl i hi
          obtain ⟨i0, hdg, hrs⟩ := hres1 d hd
          have hieq : i0 = i := by
            rw [hi] at hrs
            exact ((Option.some.injEq _ _).mp hrs).symm
          subst hieq
          have hmem := dget_mem (createStage g0.chans botsId (buildReadOnlyOverwrites guildId (rolesMapOf g0)) newChs g0 []).2.1 d.name i0 hdg
          exact pinStage_pins pinned (createStage g0.chans botsId (buildReadOnlyOverwrites guildId (rolesMapOf g0)) newChs g0 []).2.1 (createStage g0.chans botsId (buildReadOnlyOverwrites guildId (rolesMapOf g0)) newChs g0 []).1 hchan1 (d.name, i0) hmem hne hcl
        have hskip : ∀ q ∈ (createStage (pinStage pinned (createStage g0.chans botsId (buildReadOnlyOverwrites guildId (rolesMapOf g0)) newChs g0 []).2.1 (createStage g0.chans botsId (buildReadOnlyOverwrites guildId (rolesMapOf g0)) newChs g0 []).1).1.chans b2 (buildReadOnlyOverwrites guildId (rolesMapOf (pinStage pinned (createStage g0.chans botsId (buildReadOnlyOverwrites guildId (rolesMapOf g0)) newChs g0 []).2.1 (createStage g0.chans botsId (buildReadOnlyOverwrites guildId (rolesMapOf g0)) newChs g0 []).1).1)) newChs (pinStage pinned (createStage g0.chans botsId (buildReadOnlyOverwrites guildId (rolesMapOf g0)) newChs g0 []).2.1 (createStage g0.chans botsId (buildReadOnlyOverwrites guildId (rolesMapOf g0)) newChs g0 []).1).1 []).2.1,
            (pinned q.1).isEmpty = true ∨ 0 < pinCountOf (createStage (pinStage pinned (createStage g0.chans botsId (buildReadOnlyOverwrites guildId (rolesMapOf g0)) newChs g0 []).2.1 (createStage g0.chans botsId (buildReadOnlyOverwrites guildId (rolesMapOf g0)) newChs g0 []).1).1.chans b2 (buildReadOnlyOverwrites guildId (rolesMapOf (pinStage pinned (createStage g0.chans botsId (buildReadOnlyOverwrites guildId (rolesMapOf g0)) newChs g0 []).2.1 (createStage g0.chans botsId (buildReadOnlyOverwrites guildId (rolesMapOf g0)) newChs g0 []).1).1)) newChs (pinStage pinned (createStage g0.chans botsId (buildReadOnlyOverwrites guildId (rolesMapOf g0)) newChs g0 []).2.1 (createStage g0.chans botsId (buildReadOnlyOverwrites guildId (rolesMapOf g0)) newChs g0 []).1).1 []).1 q.2
            ∨ ∀ m ∈ pinned q.1, containsPlaceholder m = true := by
          intro q hq
          rcases createStage_all_found_mem (pinStage pinned (createStage g0.chans botsId (buildReadOnlyOverwrites guildId (rolesMapOf g0)) newChs g0 []).2.1 (createStage g0.chans botsId (buildReadOnlyOverwrites guildId (rolesMapOf g0)) newChs g0 []).1).1.chans b2 (buildReadOnlyOverwrites guildId (rolesMapOf (pinStage pinned (createStage g0.chans botsId (buildReadOnlyOverwrites guildId (rolesMapOf g0)) newChs g0 []).2.1 (createStage g0.chans botsId (buildReadOnlyOverwrites guildId (rolesMapOf g0)) newChs g0 []).1).1)) newChs (pinStage pinned (createStage g0.chans botsId (buildReadOnlyOverwrites guildId (rolesMapOf g0)) newChs g0 []).2.1 (createStage g0.chans botsId (buildReadOnlyOverwrites guildId (rolesMapOf g0)) newChs g0 []).1).1 [] hfound2 q hq
            with h | hres
          · simp at h
          · rcases createStage_mem_names (pinStage pinned (createStage g0.chans botsId (buildReadOnlyOverwrites guildId (rolesMapOf g0)) newChs g0 []).2.1 (createStage g0.chans botsId (buildReadOnlyOverwrites guildId (rolesMapOf g0)) newChs g0 []).1).1.chans b2 (buildReadOnlyOverwrites guildId (rolesMapOf (pinStage pinned (createStage g0.chans botsId (buildReadOnlyOverwrites guildId (rolesMapOf g0)) newChs g0 []).2.1 (createStage g0.chans botsId (buildReadOnlyOverwrites guildId (rolesMapOf g0)) newChs g0 []).1).1)) newChs (pinStage pinned (createStage g0.chans botsId (buildReadOnlyOverwrites guildId (rolesMapOf g0)) newChs g0 []).2.1 (createStage g0.chans botsId (buildReadOnlyOverwrites guildId (rolesMapOf g0)) newChs g0 []).1).1 [] q hq
              with h | ⟨d, hd, hqn⟩
            · simp at h
            · by_cases hemp : (pinned q.1).isEmpty = true
              · exact Or.inl hemp
              · by_cases hall : ∀ m ∈ pinned q.1, containsPlaceholder m = true
                · exact Or.inr (Or.inr hall)
                · refine Or.inr (Or.inl ?_)
                  push_neg at hall
                  obtain ⟨m, hm, hmc⟩ := hall
                  rw [hcs2.1]
                  rw [hqn] at hemp hm hres
                  exact hG1pins d hd (by simpa using hemp) ⟨m, hm, by simpa using hmc⟩
                    q.2 hres
        have hps2 := pinStage_skips pinned (createStage (pinStage pinned (createStage g0.chans botsId (buildReadOnlyOverwrites guildId (rolesMapOf g0)) newChs g0 []).2.1 (createStage g0.chans botsId (buildReadOnlyOverwrites guildId (rolesMapOf g0)) newChs g0 []).1).1.chans b2 (buildReadOnlyOverwrites guildId (rolesMapOf (pinStage pinned (createStage g0.chans botsId (buildReadOnlyOverwrites guildId (rolesMapOf g0)) newChs g0 []).2.1 (createStage g0.chans botsId (buildReadOnlyOverwrites guildId (rolesMapOf g0)) newChs g0 []).1).1)) newChs (pinStage pinned (createStage g0.chans botsId (buildReadOnlyOverwrites guildId (rolesMapOf g0)) newChs g0 []).2.1 (createStage g0.chans botsId (buildReadOnlyOverwrites guildId (rolesMapOf g0)) newChs g0 []).1).1 []).2.1 (createStage (pinStage pinned (createStage g0.chans botsId (buildReadOnlyOverwrites guildId (rolesMapOf g0)) newChs g0 []).2.1 (createStage g0.chans botsId (buildReadOnlyOverwrites guildId (rolesMapOf g0)) newChs g0 []).1).1.chans b2 (buildReadOnlyOverwrites guildId (rolesMapOf (pinStage pinned (createStage g0.chans botsId (buildReadOnlyOverwrites guildId (rolesMapOf g0)) newChs g0 []).2.1 (createStage g0.chans botsId (buildReadOnlyOverwrites guildId (rolesMapOf g0)) newChs g0 []).1).1)) newChs (pinStage pinned (createStage g0.chans botsId (buildReadOnlyOverwrites guildId (rolesMapOf g0)) newChs g0 []).2.1 (createStage g0.chans botsId (buildReadOnlyOverwrites guildId (rolesMapOf g0)) newChs g0 []).1).1 []).1 hskip
        simp only [haf1]
        simp only [haf2]
        refine ⟨?_, ?_, ?_⟩
        · intro q hq
          simp only [hcs2.2, List.nil_append] at hq
          rcases List.mem_cons.mp hq with rfl | hq
          · exact ⟨rfl, rfl, rfl⟩
          rcases List.mem_cons.mp hq with rfl | hq
          · exact ⟨rfl, rfl, rfl⟩
          · have h1 := pinStage_no_create pinned (createStage (pinStage pinned (createStage g0.chans botsId (buildReadOnlyOverwrites guildId (rolesMapOf g0)) newChs g0 []).2.1 (createStage g0.chans botsId (buildReadOnlyOverwrites guildId (rolesMapOf g0)) newChs g0 []).1).1.chans b2 (buildReadOnlyOverwrites guildId (rolesMapOf (pinStage pinned (createStage g0.chans botsId (buildReadOnlyOverwrites guildId (rolesMapOf g0)) newChs g0 []).2.1 (createStage g0.chans botsId (buildReadOnlyOverwrites guildId (rolesMapOf g0)) newChs g0 []).1).1)) newChs (pinStage pinned (createStage g0.chans botsId (buildReadOnlyOverwrites guildId (rolesMapOf g0)) newChs g0 []).2.1 (createStage g0.chans botsId (buildReadOnlyOverwrites guildId (rolesMapOf g0)) newChs g0 []).1).1 []).2.1 (createStage (pinStage pinned (createStage g0.chans botsId (buildReadOnlyOverwrites guildId (rolesMapOf g0)) newChs g0 []).2.1 (createStage g0.chans botsId (buildReadOnlyOverwrites guildId (rolesMapOf g0)) newChs g0 []).1).1.chans b2 (buildReadOnlyOverwrites guildId (rolesMapOf (pinStage pinned (createStage g0.chans botsId (buildReadOnlyOverwrites guildId (rolesMapOf g0)) newChs g0 []).2.1 (createStage g0.chans botsId (buildReadOnlyOverwrites guildId (rolesMapOf g0)) newChs g0 []).1).1)) newChs (pinStage pinned (createStage g0.chans botsId (buildReadOnlyOverwrites guildId (rolesMapOf g0)) newChs g0 []).2.1 (createStage g0.chans botsId (buildReadOnlyOverwrites guildId (rolesMapOf g0)) newChs g0 []).1).1 []).1 q hq
            have h2 := hps2.2 q hq
            exact ⟨h1, h2.1, h2.2⟩
        · rw [hps2.1, hcs2.1]
        · intro _ d hd
          exact createStage_resolves (pinStage pinned (createStage g0.chans botsId (buildReadOnlyOverwrites guildId (rolesMapOf g0)) newChs g0 []).2.1 (createStage g0.chans botsId (buildReadOnlyOverwrites guildId (rolesMapOf g0)) newChs g0 []).1).1.chans b2 (buildReadOnlyOverwrites guildId (rolesMapOf (pinStage pinned (createStage g0.chans botsId (buildReadOnlyOverwrites guildId (rolesMapOf g0)) newChs g0 []).2.1 (createStage g0.chans botsId (buildReadOnlyOverwrites guildId (rolesMapOf g0)) newChs g0 []).1).1)) newChs (pinStage pinned (createStage g0.chans botsId (buildReadOnlyOverwrites guildId (rolesMapOf g0)) newChs g0 []).2.1 (createStage g0.chans botsId (buildReadOnlyOverwrites guildId (rolesMapOf g0)) newChs g0 []).1).1 [] d.name
            (Or.inl ⟨d, hd, rfl⟩)

/-- A small live guild: the BOTS category and one role. -/
def g0W : Guild := ⟨[⟨1, "BOTS", 4, 0⟩], [("Member", "RM")], 2⟩

/-- A pinned-message map giving "crypto-news" one clean and one
placeholder-carrying message. -/
def pinnedW : String → List String :=
  fun n => if n = "crypto-news" then ["clean news", "bad URL_PLACEHOLDER link"] else []

/-- Witness for C8 at the shipped four-channel catalog against a concrete
guild. -/
theorem addFeed_twice_idempotent_witness :
    (∀ q ∈ (addFeed "G" (fun _ : String => ([] : List String)) NEW_CHANNELS
          (addFeed "G" (fun _ : String => ([] : List String)) NEW_CHANNELS g0W).guild).reqs,
        isFeedCreate q = false ∧ isFeedSend q = false ∧ isFeedPin q = false)
    ∧ (addFeed "G" (fun _ : String => ([] : List String)) NEW_CHANNELS
          (addFeed "G" (fun _ : String => ([] : List String)) NEW_CHANNELS g0W).guild).guild.chans
        = (addFeed "G" (fun _ : String => ([] : List String)) NEW_CHANNELS g0W).guild.chans
    ∧ ((addFeed "G" (fun _ : String => ([] : List String)) NEW_CHANNELS g0W).exitCode = none →
        ∀ d ∈ NEW_CHANNELS,
          (dget (addFeed "G" (fun _ : String => ([] : List String)) NEW_CHANNELS
              (addFeed "G" (fun _ : String => ([] : List String)) NEW_CHANNELS g0W).guild).created
            d.name).isSome) :=
  addFeed_twice_idempotent "G" (fun _ : String => ([] : List String)) NEW_CHANNELS g0W
    (by decide)

/-- Witness for C9 at a concrete mixed message list and guild. -/
theorem incremental_placeholder_skips_only_offending_witness :
    sentContents (pinMsgsLoop 7 ["clean news", "bad URL_PLACEHOLDER link"] g0W).2
      = ["clean news", "bad URL_PLACEHOLDER link"].filter (fun m => !containsPlaceholder m)
    ∧ ((pinMsgsLoop 7 ["clean news", "bad URL_PLACEHOLDER link"] g0W).2.filter
          isFeedPin).length
      = (["clean news", "bad URL_PLACEHOLDER link"].filter
          (fun m => !containsPlaceholder m)).length
    ∧ (∀ q ∈ [(("crypto-news" : String), (7 : Nat))], (pinnedW q.1).isEmpty = false →
        FReq.getPins q.2 ∈ (pinStage pinnedW [("crypto-news", 7)] g0W).2)
    ∧ (addFeed "G" pinnedW NEW_CHANNELS g0W).exitCode = none :=
  incremental_placeholder_skips_only_offending "G" pinnedW NEW_CHANNELS g0W 7
    ["clean news", "bad URL_PLACEHOLDER link"] g0W [("crypto-news", 7)]
    (by decide) (by decide) (by decide)

end Rill
